import Mathlib

/-! Golem runtime value model.

A shallow embedding of the `core` package (`null.go`, `str.go`, `list.go`,
`obj.go`) and of the token kinds of the `ast` package (`token.go`), and
theorems about them.

Conventions of the embedding.

* A Go result pair `(v, err)` is `Except.ok v` when `err` is nil and
  `Except.error err` otherwise.  The value that accompanies a non-nil error
  in the source (`nil`, `FALSE`, `TOBJ`, `Str("")`) is ignored by every caller
  and is not kept.  A method whose only result is an `Error` returns
  `Option Error`, `none` standing for the nil error.
* Methods with a pointer receiver are written in state passing style: they
  return the receiver after the call together with the result.
* An operation that contains an indexing expression (`ls.array[n]`,
  `vals[i]`) returns an `Option`; `none` stands for the run-time abort Go
  raises when the index is out of range.
* `*_list` and `*_obj` values are modelled by the data they point to, so a
  value of the model is a finite tree.
* The size of Go's `int` depends on the build target; it is the parameter
  `bits` (32 or 64) of the operations that convert to `int`.
-/

namespace Golem

/-- Modelled from the spec: the error taxonomy (the error module is not among
the sources).  One constructor per error constructor called in the sources. -/
inductive Error where
  | TypeMismatch (expected : String)
  | IndexOutOfBounds
  | NullValue
  | UninitializedObj
  | NoSuchField (key : String)
  | ExpectedCmp
  | ExpectedNumber
  | ExpectedBool
  | ExpectedObj
  deriving DecidableEq, Repr

/-- Modelled from the spec: the `Type` enumeration returned by `TypeOf`. -/
inductive ValueType where
  | TNULL | TSTR | TINT | TLIST | TOBJ
  deriving DecidableEq, Repr

/-- The `Str` variant: `type Str string`. -/
abbrev Str := String

/-- Runtime values.  A slice is `none` when it is the nil slice and `some xs`
when it is a non-nil slice holding `xs`; a map is `none` when it is the nil
map and otherwise an association list.  `int` is modelled from the spec (the
`Int` variant wraps an `int64`; its source file is not among the sources). -/
inductive Value where
  | null : Value
  | str (s : Str) : Value
  | int (i : Int) : Value
  | list (array : Option (List Value)) : Value
  | obj (fields : Option (List (String × Value))) (inited : Bool) : Value

/-- The state behind a `*_list`. -/
structure _list where
  array : Option (List Value)

/-- The state behind a `*_obj`. -/
structure _obj where
  fields : Option (List (String × Value))
  inited : Bool

/-- An `ObjDef`: the ordered field names. -/
structure ObjDef where
  Keys : List String

/-- A `*_list` seen as a `Value`. -/
def _list.toValue (ls : _list) : Value := Value.list ls.array

/-- A `*_obj` seen as a `Value`. -/
def _obj.toValue (o : _obj) : Value := Value.obj o.fields o.inited

/-! ## Slices, maps and machine integers -/

/-- The values of type `int64`. -/
def IsInt64 (i : Int) : Prop := -(2 ^ 63) ≤ i ∧ i < 2 ^ 63

instance (i : Int) : Decidable (IsInt64 i) := by unfold IsInt64; infer_instance

/-- The sizes of Go's `int`: 32 bits or 64 bits, by build target. -/
def IntSize (bits : Nat) : Prop := bits = 32 ∨ bits = 64

/-- The values of type `int` when `int` has `bits` bits. -/
def FitsInt (bits : Nat) (i : Int) : Prop := -(2 ^ (bits - 1)) ≤ i ∧ i < 2 ^ (bits - 1)

instance (bits : Nat) (i : Int) : Decidable (FitsInt bits i) := by
  unfold FitsInt; infer_instance

/-- The conversion `int(x)` of an `int64` on a target whose `int` has `bits`
bits: the low `bits` bits of `x`, read as a signed number. -/
def toInt (bits : Nat) (x : Int) : Int :=
  (x + 2 ^ (bits - 1)) % 2 ^ bits - 2 ^ (bits - 1)

/-- Go `len(s)` of a slice. -/
def sliceLen {α : Type} : Option (List α) → Nat
  | none => 0
  | some xs => xs.length

/-- Go `s[n]` of a slice; `none` is the run-time abort on a bad index. -/
def sliceIndex {α : Type} : Option (List α) → Nat → Option α
  | none, _ => none
  | some xs, n => xs[n]?

/-- Go `s[n] = v` on a slice; `none` is the run-time abort on a bad index. -/
def sliceAssign {α : Type} : Option (List α) → Nat → α → Option (Option (List α))
  | none, _, _ => none
  | some xs, n, v => if n < xs.length then some (some (xs.set n v)) else none

/-- Go `append(s, v)`. -/
def sliceAppend {α : Type} : Option (List α) → α → Option (List α)
  | none, v => some [v]
  | some xs, v => some (xs ++ [v])

/-! ## `list.go` -/

/-- `NewList`. -/
def NewList (values : Option (List Value)) : _list := ⟨values⟩

/-- `_list.Get`, on a target whose `int` has `bits` bits. -/
def _list.Get (bits : Nat) (ls : _list) (index : Value) :
    Option (_list × Except Error Value) :=
  match index with
  | Value.int i =>
    let n := toInt bits i
    if n < 0 ∨ n ≥ (sliceLen ls.array : Int) then
      some (ls, Except.error Error.IndexOutOfBounds)
    else
      match sliceIndex ls.array n.toNat with
      | some v => some (ls, Except.ok v)
      | none => none
  | _ => some (ls, Except.error (Error.TypeMismatch "Expected 'Int'"))

/-- `_list.Set`, on a target whose `int` has `bits` bits. -/
def _list.Set (bits : Nat) (ls : _list) (index : Value) (val : Value) :
    Option (_list × Option Error) :=
  match index with
  | Value.int i =>
    let n := toInt bits i
    if n < 0 ∨ n ≥ (sliceLen ls.array : Int) then
      some (ls, some Error.IndexOutOfBounds)
    else
      match sliceAssign ls.array n.toNat val with
      | some array => some (⟨array⟩, none)
      | none => none
  | _ => some (ls, some (Error.TypeMismatch "Expected 'Int'"))

/-- `_list.Append`. -/
def _list.Append (ls : _list) (val : Value) : _list × Option Error :=
  (⟨sliceAppend ls.array val⟩, none)

/-- `_list.Len`. -/
def _list.Len (ls : _list) : _list × Except Error Value :=
  (ls, Except.ok (Value.int (sliceLen ls.array)))

/-! ## Maps -/

/-- Go `v, ok := m[k]`; a lookup in the nil map finds nothing. -/
def mapLookup {α : Type} : List (String × α) → String → Option α
  | [], _ => none
  | (k0, v) :: rest, k => if k0 = k then some v else mapLookup rest k

/-- Go `m[k] = v` on a non-nil map: overwrite the entry of `k`, or add one. -/
def mapAssign {α : Type} : List (String × α) → String → α → List (String × α)
  | [], k, v => [(k, v)]
  | (k0, v0) :: rest, k, v =>
    if k0 = k then (k0, v) :: rest else (k0, v0) :: mapAssign rest k v

/-- Go `len(m)` of a map. -/
def mapLen {α : Type} : Option (List (String × α)) → Nat
  | none => 0
  | some fs => fs.length

/-- The keys of a map. -/
def mapKeys {α : Type} : Option (List (String × α)) → List String
  | none => []
  | some fs => fs.map Prod.fst

/-- Go `v, ok := m[k]` on a map that may be nil. -/
def mapGet {α : Type} : Option (List (String × α)) → String → Option α
  | none, _ => none
  | some fs, k => mapLookup fs k

/-! ## `reflect.DeepEqual`

The standard library function, following its documentation, on the types of
the value model: interface values are deeply equal when they hold deeply equal
concrete values of the same type; pointers when they point to deeply equal
values; structs when their fields are; slices when both are nil or both are
non-nil, they have the same length and their elements are deeply equal; maps
when both are nil or both are non-nil, they have the same length and
corresponding keys map to deeply equal values. -/

mutual
/-- Deep equality of two `Value`s. -/
def deepEqual : Value → Value → Bool
  | Value.null, Value.null => true
  | Value.str s, Value.str t => decide (s = t)
  | Value.int i, Value.int j => decide (i = j)
  | Value.list none, Value.list none => true
  | Value.list (some xs), Value.list (some ys) => deepEqualElems xs ys
  | Value.obj none i, Value.obj none j => decide (i = j)
  | Value.obj (some fs) i, Value.obj (some gs) j =>
    decide (fs.length = gs.length) && deepEqualEntries fs gs && decide (i = j)
  | _, _ => false
/-- Deep equality of the elements of two non-nil slices. -/
def deepEqualElems : List Value → List Value → Bool
  | [], [] => true
  | x :: xs, y :: ys => deepEqual x y && deepEqualElems xs ys
  | _, _ => false
/-- Every entry of the first map has a deeply equal entry in the second. -/
def deepEqualEntries : List (String × Value) → List (String × Value) → Bool
  | [], _ => true
  | (k, v) :: rest, gs =>
    (match mapLookup gs k with
      | some w => deepEqual v w
      | none => false) && deepEqualEntries rest gs
end

/-- `reflect.DeepEqual` on two `[]Value`. -/
def deepEqualSlice : Option (List Value) → Option (List Value) → Bool
  | none, none => true
  | some xs, some ys => deepEqualElems xs ys
  | _, _ => false

/-- `reflect.DeepEqual` on two `map[string]Value`. -/
def deepEqualMap : Option (List (String × Value)) → Option (List (String × Value)) → Bool
  | none, none => true
  | some fs, some gs => decide (fs.length = gs.length) && deepEqualEntries fs gs
  | _, _ => false

/-! ## Rendering

`v.String()` on an interface value dispatches on the variant: `Value.String`
is that dispatch, and each arm is the body of the variant's `String` method.

Go leaves open the order in which `range` visits the entries of a map, and
the order may differ from one loop to the next.  The order is a parameter
`ord` of every operation that renders: the entries, paired with the
renderings of their values, are visited in the order `ord` puts them in. -/

/-- An iteration order for `range` over a map. -/
abbrev MapOrder := List (String × Except Error Str) → List (String × Except Error Str)

/-- The loop of `_obj.String` over the entries in visiting order, with the
counter `idx` and the buffer `buf`. -/
def objStringLoop : List (String × Except Error Str) → Nat → String → Except Error String
  | [], _, buf => Except.ok buf
  | (k, r) :: rest, idx, buf =>
    let buf := if idx > 0 then buf ++ "," else buf
    let idx := idx + 1
    let buf := buf ++ " " ++ k ++ ": "
    match r with
    | Except.error err => Except.error err
    | Except.ok s => objStringLoop rest idx (buf ++ s)

mutual
/-- The method `String` of every variant; `Int` renders in decimal (modelled
from the spec). -/
def Value.String (ord : MapOrder) : Value → Except Error Str
  | Value.null => Except.ok "null"
  | Value.str s => Except.ok s
  | Value.int i => Except.ok (toString i)
  | Value.list none => Except.ok "[]"
  | Value.list (some xs) =>
    if xs.length = 0 then Except.ok "[]"
    else
      match listStringLoop ord xs 0 "[" with
      | Except.error err => Except.error err
      | Except.ok buf => Except.ok (buf ++ " ]")
  | Value.obj none inited =>
    if !inited then Except.error Error.UninitializedObj
    else Except.ok "obj \x7b\x7d"
  | Value.obj (some fs) inited =>
    if !inited then Except.error Error.UninitializedObj
    else if fs.length = 0 then Except.ok "obj \x7b\x7d"
    else
      match objStringLoop (ord (renderEntries ord fs)) 0 "obj \x7b" with
      | Except.error err => Except.error err
      | Except.ok buf => Except.ok (buf ++ " \x7d")
/-- The loop of `_list.String` over the elements, with the index `idx` and the
buffer `buf`. -/
def listStringLoop (ord : MapOrder) : List Value → Nat → String → Except Error String
  | [], _, buf => Except.ok buf
  | v :: rest, idx, buf =>
    let buf := if idx > 0 then buf ++ "," else buf
    let buf := buf ++ " "
    match Value.String ord v with
    | Except.error err => Except.error err
    | Except.ok s => listStringLoop ord rest (idx + 1) (buf ++ s)
/-- The entries of a map, each value replaced by the outcome of its `String`. -/
def renderEntries (ord : MapOrder) : List (String × Value) → List (String × Except Error Str)
  | [] => []
  | (k, v) :: rest => (k, Value.String ord v) :: renderEntries ord rest
end

/-! ## `str.go` -/

/-- The loop of `strcat` with its buffer. -/
def strcatLoop (ord : MapOrder) : List Value → String → Except Error Str
  | [], buf => Except.ok buf
  | v :: rest, buf =>
    match Value.String ord v with
    | Except.error err => Except.error err
    | Except.ok s => strcatLoop ord rest (buf ++ s)

/-- `strcat`. -/
def strcat (ord : MapOrder) (a : List Value) : Except Error Str :=
  strcatLoop ord a ""

/-- A `Str` result returned as a `Value`. -/
def asValue : Except Error Str → Except Error Value
  | Except.ok s => Except.ok (Value.str s)
  | Except.error err => Except.error err

/-- `Str.TypeOf`. -/
def Str.TypeOf (_s : Str) : Except Error ValueType := Except.ok ValueType.TSTR

/-- `Str.String`. -/
def Str.String (s : Str) : Except Error Str := Except.ok s

/-- `Str.Eq`. -/
def Str.Eq (s : Str) (v : Value) : Except Error Bool :=
  match v with
  | Value.str t => Except.ok (decide (s = t))
  | _ => Except.ok false

/-- `Str.Cmp`. -/
def Str.Cmp (s : Str) (v : Value) : Except Error Int :=
  match v with
  | Value.str t =>
    if s < t then Except.ok (-1)
    else if s > t then Except.ok 1
    else Except.ok 0
  | _ => Except.error Error.ExpectedCmp

/-- `Str.Add`. -/
def Str.Add (ord : MapOrder) (s : Str) (v : Value) : Except Error Value :=
  asValue (strcat ord [Value.str s, v])

/-! ## `null.go` -/

/-- `_null.TypeOf`. -/
def _null.TypeOf : Except Error ValueType := Except.ok ValueType.TNULL

/-- `_null.String`. -/
def _null.String : Except Error Str := Except.ok "null"

/-- `_null.Eq`. -/
def _null.Eq (v : Value) : Except Error Bool :=
  match v with
  | Value.null => Except.ok true
  | _ => Except.ok false

/-- `_null.Cmp`. -/
def _null.Cmp (_v : Value) : Except Error Int := Except.error Error.NullValue

/-- `_null.Add`. -/
def _null.Add (ord : MapOrder) (v : Value) : Except Error Value :=
  match v with
  | Value.str t => asValue (strcat ord [Value.null, Value.str t])
  | _ => Except.error Error.NullValue

/-! ## `list.go`, the `Value` methods -/

/-- `_list.TypeOf`. -/
def _list.TypeOf (ls : _list) : _list × Except Error ValueType :=
  (ls, Except.ok ValueType.TLIST)

/-- `_list.String`. -/
def _list.String (ord : MapOrder) (ls : _list) : _list × Except Error Str :=
  (ls, Value.String ord ls.toValue)

/-- `_list.Eq`. -/
def _list.Eq (ls : _list) (v : Value) : _list × Except Error Bool :=
  match v with
  | Value.list t => (ls, Except.ok (deepEqualSlice ls.array t))
  | _ => (ls, Except.ok false)

/-- `_list.Cmp`. -/
def _list.Cmp (ls : _list) (_v : Value) : _list × Except Error Int :=
  (ls, Except.error (Error.TypeMismatch "Expected Comparable Type"))

/-- `_list.Add`. -/
def _list.Add (ord : MapOrder) (ls : _list) (v : Value) : _list × Except Error Value :=
  match v with
  | Value.str t => (ls, asValue (strcat ord [ls.toValue, Value.str t]))
  | _ => (ls, Except.error (Error.TypeMismatch "Expected Number Type"))

/-! ## `obj.go` -/

/-- `NewObj`. -/
def NewObj : _obj := ⟨none, false⟩

/-- The loop of `_obj.Init`: `i` is the index of the first key of `keys` in
`def.Keys`; `none` is the run-time abort of `vals[i]`. -/
def initLoop (vals : List Value) :
    List String → Nat → List (String × Value) → Option (List (String × Value))
  | [], _, fields => some fields
  | k :: keys, i, fields =>
    match vals[i]? with
    | some v => initLoop vals keys (i + 1) (mapAssign fields k v)
    | none => none

/-- `_obj.Init`. -/
def _obj.Init (_o : _obj) (d : ObjDef) (vals : List Value) : Option _obj :=
  match initLoop vals d.Keys 0 [] with
  | some fields => some ⟨some fields, true⟩
  | none => none

/-- `_obj.TypeOf`. -/
def _obj.TypeOf (o : _obj) : _obj × Except Error ValueType :=
  if !o.inited then (o, Except.error Error.UninitializedObj)
  else (o, Except.ok ValueType.TOBJ)

/-- `_obj.String`. -/
def _obj.String (ord : MapOrder) (o : _obj) : _obj × Except Error Str :=
  (o, Value.String ord o.toValue)

/-- `_obj.Eq`. -/
def _obj.Eq (o : _obj) (v : Value) : _obj × Except Error Bool :=
  if !o.inited then (o, Except.error Error.UninitializedObj)
  else
    match v with
    | Value.obj fields _ => (o, Except.ok (deepEqualMap o.fields fields))
    | _ => (o, Except.ok false)

/-- `_obj.Cmp`. -/
def _obj.Cmp (o : _obj) (_v : Value) : _obj × Except Error Int :=
  if !o.inited then (o, Except.error Error.UninitializedObj)
  else (o, Except.error (Error.TypeMismatch "Expected Comparable Type"))

/-- `_obj.Add`. -/
def _obj.Add (ord : MapOrder) (o : _obj) (v : Value) : _obj × Except Error Value :=
  if !o.inited then (o, Except.error Error.UninitializedObj)
  else
    match v with
    | Value.str t => (o, asValue (strcat ord [o.toValue, Value.str t]))
    | _ => (o, Except.error (Error.TypeMismatch "Expected Number Type"))

/-- `_obj.GetField`. -/
def _obj.GetField (o : _obj) (key : Str) : _obj × Except Error Value :=
  if !o.inited then (o, Except.error Error.UninitializedObj)
  else
    match mapGet o.fields key with
    | some v => (o, Except.ok v)
    | none => (o, Except.error (Error.NoSuchField key))

/-- `_obj.PutField`. -/
def _obj.PutField (o : _obj) (key : Str) (val : Value) : _obj × Option Error :=
  if !o.inited then (o, some Error.UninitializedObj)
  else
    match o.fields with
    | some fs =>
      match mapLookup fs key with
      | some _ => (⟨some (mapAssign fs key val), o.inited⟩, none)
      | none => (o, some (Error.NoSuchField key))
    | none => (o, some (Error.NoSuchField key))

/-! ## Representation invariants

A Go map holds one entry per key, so an association list stands for a map
when its keys are pairwise distinct. -/

mutual
/-- Every map inside the value holds one entry per key. -/
def Value.WF : Value → Bool
  | Value.list (some xs) => WFElems xs
  | Value.obj (some fs) _ => decide ((fs.map Prod.fst).Nodup) && WFEntries fs
  | _ => true
/-- The elements of a slice are well formed. -/
def WFElems : List Value → Bool
  | [] => true
  | x :: xs => Value.WF x && WFElems xs
/-- The values of the entries of a map are well formed. -/
def WFEntries : List (String × Value) → Bool
  | [] => true
  | (_, v) :: rest => Value.WF v && WFEntries rest
end

/-- The states of an Obj after `Init`: the flag is set and the map is not nil
(it holds one entry per key). -/
def _obj.Ready (o : _obj) : Prop :=
  o.inited = true ∧ ∃ fs, o.fields = some fs ∧ (fs.map Prod.fst).Nodup

/-! ## Deep equality in the words of the spec

The spec calls two values deep-equal by structure: Lists when they have the
same length and their elements at each index are deep-equal, Objs when their
key sets and the values under each key match.  Scalars are deep-equal when
they are of the same variant with the same content.  An Obj is compared in its
lifecycle phase: the flag, and whether the field map has been made. -/

mutual
/-- Deep equality of two values as the spec words it. -/
def specEqual : Value → Value → Bool
  | Value.null, Value.null => true
  | Value.str s, Value.str t => decide (s = t)
  | Value.int i, Value.int j => decide (i = j)
  | Value.list none, Value.list none => true
  | Value.list none, Value.list (some ys) => decide (ys.length = 0)
  | Value.list (some xs), Value.list none => decide (xs.length = 0)
  | Value.list (some xs), Value.list (some ys) => specEqualElems xs ys
  | Value.obj none i, Value.obj none j => decide (i = j)
  | Value.obj (some fs) i, Value.obj (some gs) j =>
    decide (i = j) && specEqualEntries fs gs &&
      gs.all (fun e => (mapLookup fs e.1).isSome)
  | _, _ => false
/-- Same length, and deep-equal elements at each index. -/
def specEqualElems : List Value → List Value → Bool
  | [], [] => true
  | x :: xs, y :: ys => specEqual x y && specEqualElems xs ys
  | _, _ => false
/-- Every key of the first map is a key of the second, with a deep-equal
value. -/
def specEqualEntries : List (String × Value) → List (String × Value) → Bool
  | [], _ => true
  | (k, v) :: rest, gs =>
    (match mapLookup gs k with
      | some w => specEqual v w
      | none => false) && specEqualEntries rest gs
end

mutual
/-- No List inside the value is empty (a List made from the nil slice is
empty). -/
def Value.noEmptyList : Value → Bool
  | Value.list none => false
  | Value.list (some xs) => decide (xs.length ≠ 0) && noEmptyListElems xs
  | Value.obj (some fs) _ => noEmptyListEntries fs
  | _ => true
/-- No List inside the elements of a slice is empty. -/
def noEmptyListElems : List Value → Bool
  | [] => true
  | x :: xs => Value.noEmptyList x && noEmptyListElems xs
/-- No List inside the values of a map is empty. -/
def noEmptyListEntries : List (String × Value) → Bool
  | [] => true
  | (_, v) :: rest => Value.noEmptyList v && noEmptyListEntries rest
end

/-! ## Dispatch and sequences of calls -/

/-- The call `a.Eq(b)` on an interface value, dispatched on the variant of
`a`, with the receiver after the call dropped.  `none` marks a variant whose
`Eq` is not among the sources. -/
def Value.Eq (a b : Value) : Option (Except Error Bool) :=
  match a with
  | Value.null => some (_null.Eq b)
  | Value.str s => some (Str.Eq s b)
  | Value.list array => some (_list.Eq ⟨array⟩ b).2
  | Value.obj fields inited => some (_obj.Eq ⟨fields, inited⟩ b).2
  | Value.int _ => none

/-- A call of one of the methods of an Obj. -/
inductive ObjOp where
  | Init (d : ObjDef) (vals : List Value)
  | TypeOf
  | String
  | Eq (v : Value)
  | Cmp (v : Value)
  | Add (v : Value)
  | GetField (key : Str)
  | PutField (key : Str) (val : Value)

/-- The Obj after one call; `none` is the run-time abort. -/
def _obj.apply (ord : MapOrder) (o : _obj) : ObjOp → Option _obj
  | ObjOp.Init d vals => o.Init d vals
  | ObjOp.TypeOf => some o.TypeOf.1
  | ObjOp.String => some (o.String ord).1
  | ObjOp.Eq v => some (o.Eq v).1
  | ObjOp.Cmp v => some (o.Cmp v).1
  | ObjOp.Add v => some (o.Add ord v).1
  | ObjOp.GetField key => some (o.GetField key).1
  | ObjOp.PutField key val => some (o.PutField key val).1

/-- The Obj after a sequence of calls, made one after the other. -/
def _obj.applyAll (ord : MapOrder) : _obj → List ObjOp → Option _obj
  | o, [] => some o
  | o, op :: ops =>
    match o.apply ord op with
    | some o1 => _obj.applyAll ord o1 ops
    | none => none

/-- The call is `Init`. -/
def ObjOp.isInit : ObjOp → Bool
  | ObjOp.Init _ _ => true
  | _ => false

/-! ## The rendering of a list in the words of the spec -/

/-- The text of a list whose elements render as `rs`: `[]` for no element,
and otherwise an opening bracket, the renderings in order, each preceded by
one space and separated by a comma, then a space and the closing bracket. -/
def listText : List String → String
  | [] => "[]"
  | r :: rs => "[" ++ String.intercalate "," ((r :: rs).map (fun x => " " ++ x)) ++ " ]"

/-! ## Values whose rendering visits no map with two entries -/

mutual
/-- No map inside the value holds more than one entry. -/
def Value.smallMaps : Value → Bool
  | Value.list (some xs) => smallMapsElems xs
  | Value.obj (some fs) _ => decide (fs.length ≤ 1) && smallMapsEntries fs
  | _ => true
/-- The elements of a slice hold no map with more than one entry. -/
def smallMapsElems : List Value → Bool
  | [] => true
  | x :: xs => Value.smallMaps x && smallMapsElems xs
/-- The values of a map hold no map with more than one entry. -/
def smallMapsEntries : List (String × Value) → Bool
  | [] => true
  | (_, v) :: rest => Value.smallMaps v && smallMapsEntries rest
end

/-- An iteration order visits every entry of the map once. -/
def MapOrder.Visits (ord : MapOrder) : Prop :=
  ∀ es : List (String × Except Error Str), (ord es).Perm es

/-! ## `ast/token.go` -/

namespace ast

/-- `type TokenKind int`. -/
abbrev TokenKind := Int

/-- The constant `UNEXPECTED_CHAR`. -/
def UNEXPECTED_CHAR : TokenKind := 0
/-- The constant `UNEXPECTED_EOF`. -/
def UNEXPECTED_EOF : TokenKind := 1
/-- The constant `badKind`. -/
def badKind : TokenKind := 2
/-- The constant `EOF`. -/
def EOF : TokenKind := 3
/-- The constant `PLUS`. -/
def PLUS : TokenKind := 4
/-- The constant `MINUS`. -/
def MINUS : TokenKind := 5
/-- The constant `MULT`. -/
def MULT : TokenKind := 6
/-- The constant `DIV`. -/
def DIV : TokenKind := 7
/-- The constant `LPAREN`. -/
def LPAREN : TokenKind := 8
/-- The constant `RPAREN`. -/
def RPAREN : TokenKind := 9
/-- The constant `LBRACE`. -/
def LBRACE : TokenKind := 10
/-- The constant `RBRACE`. -/
def RBRACE : TokenKind := 11
/-- The constant `SEMICOLON`. -/
def SEMICOLON : TokenKind := 12
/-- The constant `COLON`. -/
def COLON : TokenKind := 13
/-- The constant `COMMA`. -/
def COMMA : TokenKind := 14
/-- The constant `DOT`. -/
def DOT : TokenKind := 15
/-- The constant `EQ`. -/
def EQ : TokenKind := 16
/-- The constant `DBL_EQ`. -/
def DBL_EQ : TokenKind := 17
/-- The constant `NOT`. -/
def NOT : TokenKind := 18
/-- The constant `NOT_EQ`. -/
def NOT_EQ : TokenKind := 19
/-- The constant `GT`. -/
def GT : TokenKind := 20
/-- The constant `GT_EQ`. -/
def GT_EQ : TokenKind := 21
/-- The constant `LT`. -/
def LT : TokenKind := 22
/-- The constant `LT_EQ`. -/
def LT_EQ : TokenKind := 23
/-- The constant `CMP`. -/
def CMP : TokenKind := 24
/-- The constant `PIPE`. -/
def PIPE : TokenKind := 25
/-- The constant `DBL_PIPE`. -/
def DBL_PIPE : TokenKind := 26
/-- The constant `AMP`. -/
def AMP : TokenKind := 27
/-- The constant `DBL_AMP`. -/
def DBL_AMP : TokenKind := 28
/-- The constant `basicBegin`. -/
def basicBegin : TokenKind := 29
/-- The constant `NULL`. -/
def NULL : TokenKind := 30
/-- The constant `TRUE`. -/
def TRUE : TokenKind := 31
/-- The constant `FALSE`. -/
def FALSE : TokenKind := 32
/-- The constant `STR`. -/
def STR : TokenKind := 33
/-- The constant `INT`. -/
def INT : TokenKind := 34
/-- The constant `FLOAT`. -/
def FLOAT : TokenKind := 35
/-- The constant `basicEnd`. -/
def basicEnd : TokenKind := 36
/-- The constant `IDENT`. -/
def IDENT : TokenKind := 37
/-- The constant `BLANK_IDENT`. -/
def BLANK_IDENT : TokenKind := 38
/-- The constant `IF`. -/
def IF : TokenKind := 39
/-- The constant `ELSE`. -/
def ELSE : TokenKind := 40
/-- The constant `WHILE`. -/
def WHILE : TokenKind := 41
/-- The constant `BREAK`. -/
def BREAK : TokenKind := 42
/-- The constant `CONTINUE`. -/
def CONTINUE : TokenKind := 43
/-- The constant `FN`. -/
def FN : TokenKind := 44
/-- The constant `RETURN`. -/
def RETURN : TokenKind := 45
/-- The constant `CONST`. -/
def CONST : TokenKind := 46
/-- The constant `LET`. -/
def LET : TokenKind := 47
/-- The constant `OBJ`. -/
def OBJ : TokenKind := 48
/-- The constant `THIS`. -/
def THIS : TokenKind := 49

/-- `TokenKind.String`; `none` is the run-time abort of the default branch. -/
def TokenKind.String (t : TokenKind) : Option String :=
  if t = UNEXPECTED_CHAR then some "UNEXPECTED_CHAR"
  else if t = UNEXPECTED_EOF then some "UNEXPECTED_EOF"
  else if t = EOF then some "EOF"
  else if t = PLUS then some "PLUS"
  else if t = MINUS then some "MINUS"
  else if t = MULT then some "MULT"
  else if t = DIV then some "DIV"
  else if t = LPAREN then some "LPAREN"
  else if t = RPAREN then some "RPAREN"
  else if t = LBRACE then some "LBRACE"
  else if t = RBRACE then some "RBRACE"
  else if t = EQ then some "EQ"
  else if t = DBL_EQ then some "DBL_EQ"
  else if t = SEMICOLON then some "SEMICOLON"
  else if t = COLON then some "COLON"
  else if t = COMMA then some "COMMA"
  else if t = DOT then some "DOT"
  else if t = NULL then some "NULL"
  else if t = TRUE then some "TRUE"
  else if t = FALSE then some "FALSE"
  else if t = STR then some "STR"
  else if t = INT then some "INT"
  else if t = FLOAT then some "FLOAT"
  else if t = IDENT then some "IDENT"
  else if t = IF then some "IF"
  else if t = ELSE then some "ELSE"
  else if t = WHILE then some "WHILE"
  else if t = BREAK then some "BREAK"
  else if t = CONTINUE then some "CONTINUE"
  else if t = FN then some "FN"
  else if t = RETURN then some "RETURN"
  else if t = CONST then some "CONST"
  else if t = LET then some "LET"
  else if t = OBJ then some "OBJ"
  else if t = THIS then some "THIS"
  else none

/-- `Pos`. -/
structure Pos where
  Line : Int
  Col : Int

/-- `Pos.String`. -/
def Pos.String (p : Pos) : String :=
  "(" ++ toString p.Line ++ ", " ++ toString p.Col ++ ")"

/-- `Token`. -/
structure Token where
  Kind : TokenKind
  Text : String
  Position : Pos

/-- `Token.String`.  The formatting is done by the standard library: `quote`
is what the verb `%q` writes for a string, and `recovered` is what it writes
in place of an operand whose `String` method aborted (the library recovers
from that abort). -/
def Token.String (quote : String → String) (recovered : String) (t : Token) : String :=
  "Token(" ++
    (match TokenKind.String t.Kind with
      | some s => s
      | none => recovered) ++
    ", " ++ quote t.Text ++ ", " ++ Pos.String t.Position ++ ")"

/-- `Token.IsBad`. -/
def Token.IsBad (t : Token) : Bool := decide (t.Kind < badKind)

/-- `Token.IsBasic`. -/
def Token.IsBasic (t : Token) : Bool := decide (t.Kind > basicBegin) && decide (t.Kind < basicEnd)

/-- The constants of the block, in the order of their declaration. -/
def declaredKinds : List (TokenKind × String) :=
  [(UNEXPECTED_CHAR, "UNEXPECTED_CHAR"), (UNEXPECTED_EOF, "UNEXPECTED_EOF"), (badKind, "badKind"), (EOF, "EOF"),
    (PLUS, "PLUS"), (MINUS, "MINUS"), (MULT, "MULT"), (DIV, "DIV"),
    (LPAREN, "LPAREN"), (RPAREN, "RPAREN"), (LBRACE, "LBRACE"), (RBRACE, "RBRACE"),
    (SEMICOLON, "SEMICOLON"), (COLON, "COLON"), (COMMA, "COMMA"), (DOT, "DOT"),
    (EQ, "EQ"), (DBL_EQ, "DBL_EQ"), (NOT, "NOT"), (NOT_EQ, "NOT_EQ"),
    (GT, "GT"), (GT_EQ, "GT_EQ"), (LT, "LT"), (LT_EQ, "LT_EQ"),
    (CMP, "CMP"), (PIPE, "PIPE"), (DBL_PIPE, "DBL_PIPE"), (AMP, "AMP"),
    (DBL_AMP, "DBL_AMP"), (basicBegin, "basicBegin"), (NULL, "NULL"), (TRUE, "TRUE"),
    (FALSE, "FALSE"), (STR, "STR"), (INT, "INT"), (FLOAT, "FLOAT"),
    (basicEnd, "basicEnd"), (IDENT, "IDENT"), (BLANK_IDENT, "BLANK_IDENT"), (IF, "IF"),
    (ELSE, "ELSE"), (WHILE, "WHILE"), (BREAK, "BREAK"), (CONTINUE, "CONTINUE"),
    (FN, "FN"), (RETURN, "RETURN"), (CONST, "CONST"), (LET, "LET"),
    (OBJ, "OBJ"), (THIS, "THIS")]

end ast

/-! ## Theorems: slices and machine integers -/

theorem toInt_of_fits {bits : Nat} {i : Int} (hb : IntSize bits) (h : FitsInt bits i) :
    toInt bits i = i := by
  unfold FitsInt at h
  unfold toInt
  rcases hb with hb | hb <;> subst hb <;> simp only [Nat.reduceSub] at h ⊢ <;> omega

theorem sliceIndex_of_lt {α : Type} (a : Option (List α)) (n : Nat) (h : n < sliceLen a) :
    ∃ v, sliceIndex a n = some v := by
  cases a with
  | none => simp [sliceLen] at h
  | some xs =>
    simp only [sliceLen] at h
    exact ⟨xs[n], by simp [sliceIndex, List.getElem?_eq_getElem h]⟩

theorem sliceAssign_of_lt {α : Type} (a : Option (List α)) (n : Nat) (v : α)
    (h : n < sliceLen a) :
    ∃ b, sliceAssign a n v = some b ∧ sliceLen b = sliceLen a ∧ sliceIndex b n = some v ∧
      ∀ j, j ≠ n → sliceIndex b j = sliceIndex a j := by
  cases a with
  | none => simp [sliceLen] at h
  | some xs =>
    simp only [sliceLen] at h
    refine ⟨some (xs.set n v), by simp [sliceAssign, h], by simp [sliceLen], ?_, ?_⟩
    · simp [sliceIndex, List.getElem?_set, h]
    · intro j hj
      simp [sliceIndex, List.getElem?_set, Ne.symm hj]

/-! ## Theorems: `list.go` -/

/-- On a target whose `int` has `bits` bits and for an index that fits in
`int`: `Get` on an in-range `Int` index returns the element stored there, on
an `Int` index below zero or not below the length it fails with
IndexOutOfBounds, on an index that is not an `Int` it fails with the type
mismatch error; in every case the list after the call is the list before. -/
theorem list_Get_spec (bits : Nat) (hbits : IntSize bits) (ls : _list) (index : Value) :
    (∀ i : Int, index = Value.int i → FitsInt bits i → 0 ≤ i → i < sliceLen ls.array →
      ∃ v, sliceIndex ls.array i.toNat = some v ∧
        ls.Get bits index = some (ls, Except.ok v)) ∧
    (∀ i : Int, index = Value.int i → FitsInt bits i → (i < 0 ∨ (sliceLen ls.array : Int) ≤ i) →
      ls.Get bits index = some (ls, Except.error Error.IndexOutOfBounds)) ∧
    ((∀ i : Int, index ≠ Value.int i) →
      ls.Get bits index = some (ls, Except.error (Error.TypeMismatch "Expected 'Int'"))) := by
  refine ⟨?_, ?_, ?_⟩
  · intro i hidx h64 h0 hn
    subst hidx
    obtain ⟨v, hv⟩ := sliceIndex_of_lt ls.array i.toNat (by omega)
    refine ⟨v, hv, ?_⟩
    have hcond : ¬ (i < 0 ∨ i ≥ (sliceLen ls.array : Int)) := by omega
    simp only [_list.Get, toInt_of_fits hbits h64, hcond, if_false, hv]
  · intro i hidx h64 hout
    subst hidx
    have hcond : i < 0 ∨ i ≥ (sliceLen ls.array : Int) := by omega
    simp only [_list.Get, toInt_of_fits hbits h64, hcond, if_true]
  · intro hne
    cases index with
    | int i => exact absurd rfl (hne i)
    | null => rfl
    | str s => rfl
    | list a => rfl
    | obj f b => rfl

theorem list_Get_spec_witness :
    (∃ v, sliceIndex (NewList (some [Value.null, Value.str "a"])).array (1 : Int).toNat = some v ∧
      (NewList (some [Value.null, Value.str "a"])).Get 64 (Value.int 1) =
        some (NewList (some [Value.null, Value.str "a"]), Except.ok v)) ∧
    (NewList (some [Value.null, Value.str "a"])).Get 64 (Value.int 2) =
      some (NewList (some [Value.null, Value.str "a"]), Except.error Error.IndexOutOfBounds) ∧
    (NewList (some [Value.null, Value.str "a"])).Get 64 Value.null =
      some (NewList (some [Value.null, Value.str "a"]),
        Except.error (Error.TypeMismatch "Expected 'Int'")) :=
  ⟨(list_Get_spec 64 (Or.inr rfl) (NewList (some [Value.null, Value.str "a"])) (Value.int 1)).1 1 rfl
      (by decide) (by decide) (by decide),
    (list_Get_spec 64 (Or.inr rfl) (NewList (some [Value.null, Value.str "a"])) (Value.int 2)).2.1 2 rfl
      (by decide) (by decide),
    (list_Get_spec 64 (Or.inr rfl) (NewList (some [Value.null, Value.str "a"])) Value.null).2.2
      (fun _ h => Value.noConfusion h)⟩

/-- On a target whose `int` has `bits` bits and for an index that fits in
`int`: `Set` succeeds exactly on an `Int` index within the bounds; then a
following `Get` of that index returns the value written, and the length and
the elements at the other positions are as before.  On an `Int` index out of
the bounds it fails with IndexOutOfBounds, on an index that is not an `Int`
with the type mismatch error, and in both cases the list is as before. -/
theorem list_Set_spec (bits : Nat) (hbits : IntSize bits) (ls : _list) (index : Value)
    (val : Value) :
    (∀ i : Int, index = Value.int i → FitsInt bits i → 0 ≤ i → i < sliceLen ls.array →
      ∃ ls1 : _list, ls.Set bits index val = some (ls1, none) ∧
        ls1.Get bits index = some (ls1, Except.ok val) ∧
        sliceLen ls1.array = sliceLen ls.array ∧
        ∀ j : Nat, j ≠ i.toNat → sliceIndex ls1.array j = sliceIndex ls.array j) ∧
    (∀ i : Int, index = Value.int i → FitsInt bits i → (i < 0 ∨ (sliceLen ls.array : Int) ≤ i) →
      ls.Set bits index val = some (ls, some Error.IndexOutOfBounds)) ∧
    ((∀ i : Int, index ≠ Value.int i) →
      ls.Set bits index val = some (ls, some (Error.TypeMismatch "Expected 'Int'"))) ∧
    (∀ i : Int, index = Value.int i → FitsInt bits i →
      ((∃ ls1 : _list, ls.Set bits index val = some (ls1, none)) ↔
        (0 ≤ i ∧ i < sliceLen ls.array))) := by
  have hin : ∀ i : Int, index = Value.int i → FitsInt bits i → 0 ≤ i → i < sliceLen ls.array →
      ∃ ls1 : _list, ls.Set bits index val = some (ls1, none) ∧
        ls1.Get bits index = some (ls1, Except.ok val) ∧
        sliceLen ls1.array = sliceLen ls.array ∧
        ∀ j : Nat, j ≠ i.toNat → sliceIndex ls1.array j = sliceIndex ls.array j := by
    intro i hidx h64 h0 hn
    subst hidx
    obtain ⟨b, hb, hlen, hget, hframe⟩ := sliceAssign_of_lt ls.array i.toNat val (by omega)
    have hcond : ¬ (i < 0 ∨ i ≥ (sliceLen ls.array : Int)) := by omega
    refine ⟨⟨b⟩, ?_, ?_, hlen, hframe⟩
    · simp only [_list.Set, toInt_of_fits hbits h64, hcond, if_false, hb]
    · have hcond1 : ¬ (i < 0 ∨ i ≥ (sliceLen b : Int)) := by omega
      simp only [_list.Get, toInt_of_fits hbits h64, hcond1, if_false, hget]
  have hout : ∀ i : Int, index = Value.int i → FitsInt bits i →
      (i < 0 ∨ (sliceLen ls.array : Int) ≤ i) →
      ls.Set bits index val = some (ls, some Error.IndexOutOfBounds) := by
    intro i hidx h64 hout
    subst hidx
    have hcond : i < 0 ∨ i ≥ (sliceLen ls.array : Int) := by omega
    simp only [_list.Set, toInt_of_fits hbits h64, hcond, if_true]
  refine ⟨hin, hout, ?_, ?_⟩
  · intro hne
    cases index with
    | int i => exact absurd rfl (hne i)
    | null => rfl
    | str s => rfl
    | list a => rfl
    | obj f b => rfl
  · intro i hidx h64
    constructor
    · rintro ⟨ls1, h1⟩
      by_contra hc
      have h2 := hout i hidx h64 (by omega)
      rw [h2] at h1
      simp at h1
    · rintro ⟨h0, hn⟩
      obtain ⟨ls1, h1, _⟩ := hin i hidx h64 h0 hn
      exact ⟨ls1, h1⟩

theorem list_Set_spec_witness :
    ∃ ls1 : _list,
      (NewList (some [Value.null, Value.str "a"])).Set 64 (Value.int 1) (Value.int 7) =
        some (ls1, none) ∧
      ls1.Get 64 (Value.int 1) = some (ls1, Except.ok (Value.int 7)) ∧
      sliceLen ls1.array = sliceLen (NewList (some [Value.null, Value.str "a"])).array ∧
      ∀ j : Nat, j ≠ (1 : Int).toNat →
        sliceIndex ls1.array j =
          sliceIndex (NewList (some [Value.null, Value.str "a"])).array j :=
  (list_Set_spec 64 (Or.inr rfl) (NewList (some [Value.null, Value.str "a"])) (Value.int 1) (Value.int 7)).1
    1 rfl (by decide) (by decide) (by decide)

/-- C1, the code at the failing input: on a target whose `int` has 32 bits,
`Get` with the Int index 4294967297 on a list of two elements returns the
element at index 1, because `int()` narrows the index to 1 before the bounds
test; the index is an `int64` not below the length, for which the claim asks
IndexOutOfBounds, and that is what the call returns when `int` has 64 bits. -/
theorem list_Get_narrowed_index :
    (NewList (some [Value.null, Value.str "a"])).Get 32 (Value.int 4294967297) =
      some (NewList (some [Value.null, Value.str "a"]), Except.ok (Value.str "a")) ∧
    IsInt64 4294967297 ∧
    (4294967297 : Int) ≥ sliceLen (NewList (some [Value.null, Value.str "a"])).array ∧
    toInt 32 4294967297 = 1 ∧
    (NewList (some [Value.null, Value.str "a"])).Get 64 (Value.int 4294967297) =
      some (NewList (some [Value.null, Value.str "a"]),
        Except.error Error.IndexOutOfBounds) := by
  refine ⟨?_, by decide, by decide, by decide, ?_⟩
  · have h : toInt 32 4294967297 = 1 := by decide
    simp [_list.Get, NewList, h, sliceLen, sliceIndex]
  · have h : toInt 64 4294967297 = 4294967297 := by decide
    simp [_list.Get, NewList, h, sliceLen]

/-- C2, the code at the failing input: on a target whose `int` has 32 bits,
`Set` with the Int index 4294967296 on a list of two elements returns the nil
error and overwrites the element at index 0, because `int()` narrows the
index to 0 before the bounds test; the index is an `int64` not below the
length, for which the claim asks IndexOutOfBounds with the list unchanged, and
that is what the call does when `int` has 64 bits. -/
theorem list_Set_narrowed_index :
    (NewList (some [Value.null, Value.str "a"])).Set 32 (Value.int 4294967296) (Value.int 7) =
      some (NewList (some [Value.int 7, Value.str "a"]), none) ∧
    IsInt64 4294967296 ∧
    (4294967296 : Int) ≥ sliceLen (NewList (some [Value.null, Value.str "a"])).array ∧
    toInt 32 4294967296 = 0 ∧
    (NewList (some [Value.null, Value.str "a"])).Set 64 (Value.int 4294967296) (Value.int 7) =
      some (NewList (some [Value.null, Value.str "a"]), some Error.IndexOutOfBounds) := by
  refine ⟨?_, by decide, by decide, by decide, ?_⟩
  · have h : toInt 32 4294967296 = 0 := by decide
    simp [_list.Set, NewList, h, sliceLen, sliceAssign]
  · have h : toInt 64 4294967296 = 4294967296 := by decide
    simp [_list.Set, NewList, h, sliceLen]

/-- C3: `Append` returns the nil error; afterwards `Len` is one more than
before, the last element is the appended value, and every element stored
before is at its old index. -/
theorem list_Append_spec (ls : _list) (val : Value) :
    (ls.Append val).2 = none ∧
    (ls.Append val).1.Len.2 = Except.ok (Value.int ((sliceLen ls.array : Int) + 1)) ∧
    ls.Len.2 = Except.ok (Value.int (sliceLen ls.array)) ∧
    sliceLen (ls.Append val).1.array = sliceLen ls.array + 1 ∧
    sliceIndex (ls.Append val).1.array (sliceLen ls.array) = some val ∧
    ∀ j : Nat, j < sliceLen ls.array →
      sliceIndex (ls.Append val).1.array j = sliceIndex ls.array j := by
  obtain ⟨a⟩ := ls
  cases a with
  | none =>
    refine ⟨rfl, ?_, rfl, rfl, rfl, ?_⟩
    · simp [_list.Append, _list.Len, sliceAppend, sliceLen]
    · intro j hj
      simp [sliceLen] at hj
  | some xs =>
    refine ⟨rfl, ?_, rfl, ?_, ?_, ?_⟩
    · simp [_list.Append, _list.Len, sliceAppend, sliceLen]
    · simp [_list.Append, sliceAppend, sliceLen]
    · simp [_list.Append, sliceAppend, sliceLen, sliceIndex]
    · intro j hj
      simp only [sliceLen] at hj
      simp [_list.Append, sliceAppend, sliceIndex, List.getElem?_append_left hj]

/-! ## Theorems: maps -/

theorem mapLookup_eq_none_iff {α : Type} (fs : List (String × α)) (k : String) :
    mapLookup fs k = none ↔ k ∉ fs.map Prod.fst := by
  induction fs with
  | nil => simp [mapLookup]
  | cons e rest ih =>
    obtain ⟨k0, v0⟩ := e
    by_cases h : k0 = k
    · simp [mapLookup, h]
    · simp [mapLookup, h, ih, Ne.symm h]

theorem mapLookup_isSome_iff {α : Type} (fs : List (String × α)) (k : String) :
    (∃ v, mapLookup fs k = some v) ↔ k ∈ fs.map Prod.fst := by
  rw [← not_iff_not, ← mapLookup_eq_none_iff]
  cases mapLookup fs k <;> simp

theorem mapLookup_mapAssign_same {α : Type} (fs : List (String × α)) (k : String) (v : α) :
    mapLookup (mapAssign fs k v) k = some v := by
  induction fs with
  | nil => simp [mapAssign, mapLookup]
  | cons e rest ih =>
    obtain ⟨k0, v0⟩ := e
    by_cases h : k0 = k
    · simp [mapAssign, mapLookup, h]
    · simp [mapAssign, mapLookup, h, ih]

theorem mapLookup_mapAssign_other {α : Type} (fs : List (String × α)) (k k1 : String) (v : α)
    (hne : k1 ≠ k) : mapLookup (mapAssign fs k v) k1 = mapLookup fs k1 := by
  induction fs with
  | nil => simp [mapAssign, mapLookup, Ne.symm hne]
  | cons e rest ih =>
    obtain ⟨k0, v0⟩ := e
    by_cases h : k0 = k
    · subst h
      simp [mapAssign, mapLookup, Ne.symm hne]
    · by_cases h1 : k0 = k1
      · subst h1
        simp [mapAssign, mapLookup, h]
      · simp [mapAssign, mapLookup, h, h1, ih]

theorem mapAssign_keys_of_mem {α : Type} (fs : List (String × α)) (k : String) (v : α)
    (hk : k ∈ fs.map Prod.fst) : (mapAssign fs k v).map Prod.fst = fs.map Prod.fst := by
  induction fs with
  | nil => simp at hk
  | cons e rest ih =>
    obtain ⟨k0, v0⟩ := e
    by_cases h : k0 = k
    · simp [mapAssign, h]
    · have hk1 : k ∈ rest.map Prod.fst := by
        simp only [List.map_cons, List.mem_cons] at hk
        rcases hk with hk | hk
        · exact absurd hk.symm h
        · exact hk
      simp [mapAssign, h, ih hk1]

theorem mapAssign_keys_of_not_mem {α : Type} (fs : List (String × α)) (k : String) (v : α)
    (hk : k ∉ fs.map Prod.fst) : (mapAssign fs k v).map Prod.fst = fs.map Prod.fst ++ [k] := by
  induction fs with
  | nil => simp [mapAssign]
  | cons e rest ih =>
    obtain ⟨k0, v0⟩ := e
    simp only [List.map_cons, List.mem_cons, not_or] at hk
    have h : ¬ k0 = k := fun h => hk.1 h.symm
    simp [mapAssign, h, ih hk.2]

theorem mapAssign_keys_nodup {α : Type} (fs : List (String × α)) (k : String) (v : α)
    (hnd : (fs.map Prod.fst).Nodup) : ((mapAssign fs k v).map Prod.fst).Nodup := by
  by_cases hk : k ∈ fs.map Prod.fst
  · rw [mapAssign_keys_of_mem fs k v hk]
    exact hnd
  · rw [mapAssign_keys_of_not_mem fs k v hk]
    exact List.Nodup.append hnd (List.nodup_singleton k) (by simpa using hk)

/-! ## Theorems: `obj.go` -/

/-- The loop of `Init` runs to its end when `vals` is long enough; the entry
of each key that occurs once holds the value at the key's index, and the
other entries are those of the map the loop started from. -/
theorem initLoop_spec (vals : List Value) :
    ∀ (keys : List String) (i : Nat) (fields : List (String × Value)),
      keys.Nodup → i + keys.length ≤ vals.length →
      ∃ fs, initLoop vals keys i fields = some fs ∧
        (∀ j k, keys[j]? = some k → mapLookup fs k = vals[i + j]?) ∧
        (∀ k, k ∉ keys → mapLookup fs k = mapLookup fields k) := by
  intro keys
  induction keys with
  | nil =>
    intro i fields _ _
    exact ⟨fields, rfl, by simp, by simp⟩
  | cons k ks ih =>
    intro i fields hnd hlen
    simp only [List.length_cons] at hlen
    have hi : i < vals.length := by omega
    obtain ⟨hk, hnd1⟩ := List.nodup_cons.mp hnd
    obtain ⟨fs, hfs, hin, hout⟩ := ih (i + 1) (mapAssign fields k vals[i]) hnd1 (by omega)
    refine ⟨fs, ?_, ?_, ?_⟩
    · simp only [initLoop, List.getElem?_eq_getElem hi, hfs]
    · intro j k1 hj
      cases j with
      | zero =>
        simp only [List.getElem?_cons_zero, Option.some.injEq] at hj
        subst hj
        rw [hout k hk, mapLookup_mapAssign_same]
        simp [List.getElem?_eq_getElem hi]
      | succ j =>
        simp only [List.getElem?_cons_succ] at hj
        rw [hin j k1 hj]
        congr 1
        omega
    · intro k1 hk1
      simp only [List.mem_cons, not_or] at hk1
      rw [hout k1 hk1.2, mapLookup_mapAssign_other _ _ _ _ hk1.1]

/-- C4: on a freshly allocated Obj each of TypeOf, String, Eq, Cmp, Add,
GetField and PutField fails with UninitializedObj, whatever the argument, and
returns the Obj as it was: uninitialized, with no fields. -/
theorem newObj_operations_fail (ord : MapOrder) (v : Value) (key : Str) (val : Value) :
    NewObj.TypeOf = (NewObj, Except.error Error.UninitializedObj) ∧
    NewObj.String ord = (NewObj, Except.error Error.UninitializedObj) ∧
    NewObj.Eq v = (NewObj, Except.error Error.UninitializedObj) ∧
    NewObj.Cmp v = (NewObj, Except.error Error.UninitializedObj) ∧
    NewObj.Add ord v = (NewObj, Except.error Error.UninitializedObj) ∧
    NewObj.GetField key = (NewObj, Except.error Error.UninitializedObj) ∧
    NewObj.PutField key val = (NewObj, some Error.UninitializedObj) ∧
    NewObj.inited = false ∧ NewObj.fields = none ∧ mapLen NewObj.fields = 0 :=
  ⟨rfl, rfl, rfl, rfl, rfl, rfl, rfl, rfl, rfl, rfl⟩

/-- C5: for pairwise distinct keys and as many values as keys, `Init` returns;
the Obj is then initialized, `GetField` of the key at index `i` returns the
value at index `i`, and `GetField` of a key that is not in the definition
fails with NoSuchField. -/
theorem obj_Init_spec (o : _obj) (d : ObjDef) (vals : List Value)
    (hnd : d.Keys.Nodup) (hlen : vals.length = d.Keys.length) :
    ∃ o1 : _obj, o.Init d vals = some o1 ∧ o1.inited = true ∧
      (∀ (i : Nat) (k : String), d.Keys[i]? = some k →
        ∃ v, vals[i]? = some v ∧ o1.GetField k = (o1, Except.ok v)) ∧
      (∀ k, k ∉ d.Keys → o1.GetField k = (o1, Except.error (Error.NoSuchField k))) := by
  obtain ⟨fs, hfs, hin, hout⟩ := initLoop_spec vals d.Keys 0 [] hnd (by omega)
  refine ⟨⟨some fs, true⟩, ?_, rfl, ?_, ?_⟩
  · simp only [_obj.Init, hfs]
  · intro i k hik
    have hi : i < vals.length := by
      rw [hlen]
      exact (List.getElem?_eq_some.mp hik).1
    refine ⟨vals[i], List.getElem?_eq_getElem hi, ?_⟩
    have h := hin i k hik
    simp only [Nat.zero_add, List.getElem?_eq_getElem hi] at h
    simp [_obj.GetField, mapGet, h]
  · intro k hk
    have h := hout k hk
    simp only [mapLookup] at h
    simp [_obj.GetField, mapGet, h]

theorem obj_Init_spec_witness :
    ∃ o1 : _obj, NewObj.Init ⟨["x", "y"]⟩ [Value.int 1, Value.int 2] = some o1 ∧
      o1.inited = true ∧
      (∀ (i : Nat) (k : String), (["x", "y"] : List String)[i]? = some k →
        ∃ v, [Value.int 1, Value.int 2][i]? = some v ∧ o1.GetField k = (o1, Except.ok v)) ∧
      (∀ k, k ∉ (["x", "y"] : List String) →
        o1.GetField k = (o1, Except.error (Error.NoSuchField k))) :=
  obj_Init_spec NewObj ⟨["x", "y"]⟩ [Value.int 1, Value.int 2] (by decide) rfl

/-- C6: on an initialized Obj `PutField(k, v)` returns the nil error exactly
when `k` is a field name; then `GetField(k)` returns `v`, the field names are
as before and so is the value of every other field.  When `k` is not a field
name it fails with NoSuchField and the Obj is as before. -/
theorem obj_PutField_spec (o : _obj) (hinit : o.inited = true) (k : Str) (v : Value) :
    (k ∈ mapKeys o.fields →
      ∃ o1 : _obj, o.PutField k v = (o1, none) ∧ o1.inited = true ∧
        o1.GetField k = (o1, Except.ok v) ∧
        mapKeys o1.fields = mapKeys o.fields ∧
        ∀ k1, k1 ≠ k → (o1.GetField k1).2 = (o.GetField k1).2) ∧
    (k ∉ mapKeys o.fields → o.PutField k v = (o, some (Error.NoSuchField k))) ∧
    ((o.PutField k v).2 = none ↔ k ∈ mapKeys o.fields) := by
  obtain ⟨fields, inited⟩ := o
  simp only at hinit
  subst hinit
  cases fields with
  | none =>
    refine ⟨?_, ?_, ?_⟩
    · intro hk
      simp [mapKeys] at hk
    · intro _
      rfl
    · simp [_obj.PutField, mapKeys]
  | some fs =>
    have hmem : k ∈ mapKeys (some fs) →
        ∃ o1 : _obj, _obj.PutField ⟨some fs, true⟩ k v = (o1, none) ∧ o1.inited = true ∧
          o1.GetField k = (o1, Except.ok v) ∧
          mapKeys o1.fields = mapKeys (some fs) ∧
          ∀ k1, k1 ≠ k →
            (o1.GetField k1).2 = (_obj.GetField ⟨some fs, true⟩ k1).2 := by
      intro hk
      simp only [mapKeys] at hk
      obtain ⟨w, hw⟩ := (mapLookup_isSome_iff fs k).mpr hk
      refine ⟨⟨some (mapAssign fs k v), true⟩, ?_, rfl, ?_, ?_, ?_⟩
      · simp [_obj.PutField, hw]
      · simp [_obj.GetField, mapGet, mapLookup_mapAssign_same]
      · simp [mapKeys, mapAssign_keys_of_mem fs k v hk]
      · intro k1 hk1
        simp only [_obj.GetField, mapGet, mapLookup_mapAssign_other fs k k1 v hk1]
        cases mapLookup fs k1 <;> rfl
    have hnot : k ∉ mapKeys (some fs) →
        _obj.PutField ⟨some fs, true⟩ k v = (⟨some fs, true⟩, some (Error.NoSuchField k)) := by
      intro hk
      simp only [mapKeys] at hk
      have hw := (mapLookup_eq_none_iff fs k).mpr hk
      simp [_obj.PutField, hw]
    refine ⟨hmem, hnot, ?_⟩
    constructor
    · intro h
      by_contra hk
      rw [hnot hk] at h
      simp at h
    · intro hk
      obtain ⟨o1, h1, _⟩ := hmem hk
      rw [h1]

theorem obj_PutField_spec_witness :
    ∃ o1 : _obj,
      (_obj.mk (some [("x", Value.int 1), ("y", Value.int 2)]) true).PutField "x" (Value.int 5) =
        (o1, none) ∧ o1.inited = true ∧
      o1.GetField "x" = (o1, Except.ok (Value.int 5)) ∧
      mapKeys o1.fields =
        mapKeys (_obj.mk (some [("x", Value.int 1), ("y", Value.int 2)]) true).fields ∧
      ∀ k1, k1 ≠ "x" →
        (o1.GetField k1).2 =
          ((_obj.mk (some [("x", Value.int 1), ("y", Value.int 2)]) true).GetField k1).2 :=
  (obj_PutField_spec (_obj.mk (some [("x", Value.int 1), ("y", Value.int 2)]) true) rfl "x"
    (Value.int 5)).1 (by decide)

/-! ## Theorems: `strcat` and `Add` -/

theorem strcat_pair (ord : MapOrder) (v : Value) (t : Str) :
    strcat ord [v, Value.str t] =
      (match Value.String ord v with
        | Except.ok s => Except.ok (s ++ t)
        | Except.error err => Except.error err) := by
  simp only [strcat, strcatLoop]
  cases Value.String ord v with
  | error err => rfl
  | ok s => simp [Value.String]

/-- C7 fails as stated: `Add` of a Str to an uninitialized Obj, and to a List
that holds one, returns the UninitializedObj error. -/
theorem add_str_to_uninitialized_fails :
    (NewObj.Add (fun es => es) (Value.str "x")).2 = Except.error Error.UninitializedObj ∧
    ((NewList (some [NewObj.toValue])).Add (fun es => es) (Value.str "x")).2 =
      Except.error Error.UninitializedObj :=
  ⟨rfl, rfl⟩

/-- C7 as amended: for Null, a Str, a List and an Obj, and every Str `t`,
`v.Add(t)` has the outcome of `v.String()` carried over: when `String` returns
a text, `Add` returns the Str of that text followed by `t`; when `String`
fails, `Add` fails with the same error.  For Null and Str both succeed.  The
receiver is returned as it was. -/
theorem add_str_follows_String (ord : MapOrder) (t : Str) :
    (_null.Add ord (Value.str t) = Except.ok (Value.str ("null" ++ t)) ∧
      _null.String = Except.ok "null") ∧
    (∀ s : Str, Str.Add ord s (Value.str t) = Except.ok (Value.str (s ++ t)) ∧
      Str.String s = Except.ok s) ∧
    (∀ ls : _list, ls.Add ord (Value.str t) =
      (ls, match (ls.String ord).2 with
        | Except.ok s => Except.ok (Value.str (s ++ t))
        | Except.error err => Except.error err)) ∧
    (∀ o : _obj, o.Add ord (Value.str t) =
      (o, match (o.String ord).2 with
        | Except.ok s => Except.ok (Value.str (s ++ t))
        | Except.error err => Except.error err)) := by
  refine ⟨⟨?_, rfl⟩, ?_, ?_, ?_⟩
  · simp [_null.Add, strcat_pair, Value.String, asValue]
  · intro s
    refine ⟨?_, rfl⟩
    simp [Str.Add, strcat_pair, Value.String, asValue]
  · intro ls
    simp only [_list.Add, _list.String, strcat_pair]
    cases Value.String ord ls.toValue <;> rfl
  · intro o
    obtain ⟨fields, inited⟩ := o
    cases inited with
    | false => cases fields <;> simp [_obj.Add, _obj.String, _obj.toValue, Value.String]
    | true =>
      simp only [_obj.Add, _obj.String, strcat_pair, Bool.not_true, Bool.false_eq_true,
        if_false]
      cases Value.String ord (_obj.toValue ⟨fields, true⟩) <;> rfl

/-- C8 fails as stated: `Add` of an uninitialized Obj to a Str returns the
UninitializedObj error. -/
theorem str_Add_uninitialized_fails :
    Str.Add (fun es => es) "ab" NewObj.toValue = Except.error Error.UninitializedObj :=
  rfl

/-- C8 as amended: `s.Add(v)` has the outcome of `v.String()` carried over:
when `v.String()` returns a text the result is the Str of the text of `s`
followed by it, and when `v.String()` fails `Add` fails with the same error.
For a Str operand it is the concatenation. -/
theorem str_Add_spec (ord : MapOrder) (s : Str) (v : Value) :
    Str.Add ord s v =
      (match Value.String ord v with
        | Except.ok r => Except.ok (Value.str (s ++ r))
        | Except.error err => Except.error err) ∧
    (∀ t : Str, Str.Add ord s (Value.str t) = Except.ok (Value.str (s ++ t))) ∧
    Str.Add ord "ab" (Value.str "cd") = Except.ok (Value.str "abcd") := by
  have h : ∀ w : Value, Str.Add ord s w =
      (match Value.String ord w with
        | Except.ok r => Except.ok (Value.str (s ++ r))
        | Except.error err => Except.error err) := by
    intro w
    simp only [Str.Add, strcat, strcatLoop, Value.String]
    cases Value.String ord w with
    | error err => rfl
    | ok r => simp [asValue]
  refine ⟨h v, ?_, rfl⟩
  intro t
  rw [h]
  simp [Value.String]

/-! ## Theorems: `reflect.DeepEqual` -/

theorem deepEqualElems_iff (xs : List Value) :
    ∀ ys : List Value, deepEqualElems xs ys = true ↔
      (xs.length = ys.length ∧
        ∀ (i : Nat) (x y : Value), xs[i]? = some x → ys[i]? = some y → deepEqual x y = true) := by
  induction xs with
  | nil =>
    intro ys
    cases ys with
    | nil => simp [deepEqualElems]
    | cons y ys => simp [deepEqualElems]
  | cons x xs ih =>
    intro ys
    cases ys with
    | nil => simp [deepEqualElems]
    | cons y ys =>
      simp only [deepEqualElems, Bool.and_eq_true, ih ys, List.length_cons, add_left_inj]
      constructor
      · rintro ⟨hxy, hlen, hrest⟩
        refine ⟨hlen, ?_⟩
        intro i a b ha hb
        cases i with
        | zero =>
          simp only [List.getElem?_cons_zero, Option.some.injEq] at ha hb
          subst ha
          subst hb
          exact hxy
        | succ i =>
          simp only [List.getElem?_cons_succ] at ha hb
          exact hrest i a b ha hb
      · rintro ⟨hlen, hall⟩
        refine ⟨hall 0 x y (by simp) (by simp), hlen, ?_⟩
        intro i a b ha hb
        exact hall (i + 1) a b (by simpa using ha) (by simpa using hb)

/-- What `_list.Eq` computes on two lists: true exactly when both slices are
nil or both are not, the lengths agree and the elements at each index are
deeply equal. -/
theorem list_Eq_iff (ls : _list) (t : Option (List Value)) :
    (ls.Eq (Value.list t)).2 = Except.ok true ↔
      (ls.array.isSome = t.isSome ∧ sliceLen ls.array = sliceLen t ∧
        ∀ (i : Nat) (x y : Value), sliceIndex ls.array i = some x → sliceIndex t i = some y →
          deepEqual x y = true) := by
  obtain ⟨a⟩ := ls
  cases a with
  | none =>
    cases t with
    | none => simp [_list.Eq, deepEqualSlice, sliceLen, sliceIndex]
    | some ys => simp [_list.Eq, deepEqualSlice]
  | some xs =>
    cases t with
    | none => simp [_list.Eq, deepEqualSlice]
    | some ys =>
      simp only [_list.Eq, deepEqualSlice, Except.ok.injEq, deepEqualElems_iff, sliceLen,
        sliceIndex, Option.isSome_some, true_and]

/-- C9, the code at the failing input: a list made from the nil slice and a
list made from an empty slice both have length 0, so they have the same length
and no pair of elements to compare, and `Eq` returns false, in both
directions. -/
theorem list_Eq_nil_empty :
    ((NewList none).Eq (NewList (some [])).toValue).2 = Except.ok false ∧
    ((NewList (some [])).Eq (NewList none).toValue).2 = Except.ok false ∧
    (NewList none).Len.2 = Except.ok (Value.int 0) ∧
    (NewList (some [])).Len.2 = Except.ok (Value.int 0) ∧
    (NewList none).String (fun es => es) = (NewList none, Except.ok "[]") ∧
    (NewList (some [])).String (fun es => es) = (NewList (some []), Except.ok "[]") :=
  ⟨rfl, rfl, rfl, rfl, rfl, rfl⟩

theorem deepEqualEntries_iff (fs gs : List (String × Value)) :
    deepEqualEntries fs gs = true ↔
      ∀ (k : String) (v : Value), (k, v) ∈ fs →
        ∃ w, mapLookup gs k = some w ∧ deepEqual v w = true := by
  induction fs with
  | nil => simp [deepEqualEntries]
  | cons e rest ih =>
    obtain ⟨k0, v0⟩ := e
    simp only [deepEqualEntries, Bool.and_eq_true, ih, List.mem_cons, Prod.mk.injEq]
    constructor
    · rintro ⟨h0, hrest⟩ k v hkv
      rcases hkv with ⟨hk, hv⟩ | hkv
      · subst hk
        subst hv
        cases hl : mapLookup gs k with
        | none => simp [hl] at h0
        | some w => exact ⟨w, rfl, by simpa [hl] using h0⟩
      · exact hrest k v hkv
    · intro hall
      refine ⟨?_, fun k v hkv => hall k v (Or.inr hkv)⟩
      obtain ⟨w, hw, hd⟩ := hall k0 v0 (Or.inl ⟨rfl, rfl⟩)
      simp [hw, hd]

theorem mem_iff_mapLookup {α : Type} (fs : List (String × α))
    (hnd : (fs.map Prod.fst).Nodup) (k : String) (v : α) :
    (k, v) ∈ fs ↔ mapLookup fs k = some v := by
  induction fs with
  | nil => simp [mapLookup]
  | cons e rest ih =>
    obtain ⟨k0, v0⟩ := e
    simp only [List.map_cons, List.nodup_cons] at hnd
    by_cases h : k0 = k
    · subst h
      have hnot : (k0, v) ∉ rest := fun hm => hnd.1 (List.mem_map_of_mem Prod.fst hm)
      simp only [List.mem_cons, Prod.mk.injEq, true_and, hnot, or_false, mapLookup, if_true,
        Option.some.injEq]
      exact eq_comm
    · simp [mapLookup, h, ih hnd.2, Ne.symm h]

mutual
/-- Deep equality is reflexive on well formed values. -/
theorem deepEqual_refl : ∀ v : Value, Value.WF v = true → deepEqual v v = true
  | Value.null, _ => rfl
  | Value.str s, _ => by simp [deepEqual]
  | Value.int i, _ => by simp [deepEqual]
  | Value.list none, _ => rfl
  | Value.list (some xs), h => by
    simp only [Value.WF] at h
    simp only [deepEqual]
    exact deepEqualElems_refl xs h
  | Value.obj none i, _ => by simp [deepEqual]
  | Value.obj (some fs) i, h => by
    simp only [Value.WF, Bool.and_eq_true, decide_eq_true_eq] at h
    simp only [deepEqual, Bool.and_eq_true, decide_eq_true_eq, and_true, true_and]
    exact deepEqualEntries_of_lookup fs fs h.2
      (fun k v hkv => (mem_iff_mapLookup fs h.1 k v).mp hkv)
/-- Deep equality of a slice with itself. -/
theorem deepEqualElems_refl : ∀ xs : List Value, WFElems xs = true → deepEqualElems xs xs = true
  | [], _ => rfl
  | x :: xs, h => by
    simp only [WFElems, Bool.and_eq_true] at h
    simp only [deepEqualElems, Bool.and_eq_true]
    exact ⟨deepEqual_refl x h.1, deepEqualElems_refl xs h.2⟩
/-- Entries that are all found, with the same value, in a second map. -/
theorem deepEqualEntries_of_lookup : ∀ fs gs : List (String × Value), WFEntries fs = true →
    (∀ (k : String) (v : Value), (k, v) ∈ fs → mapLookup gs k = some v) →
    deepEqualEntries fs gs = true
  | [], _, _, _ => rfl
  | (k, v) :: rest, gs, h, hl => by
    simp only [WFEntries, Bool.and_eq_true] at h
    simp only [deepEqualEntries, Bool.and_eq_true]
    refine ⟨?_, deepEqualEntries_of_lookup rest gs h.2
      (fun k1 v1 hm => hl k1 v1 (List.mem_cons_of_mem _ hm))⟩
    rw [hl k v (List.mem_cons_self _ _)]
    exact deepEqual_refl v h.1
end

/-- What `reflect.DeepEqual` computes on two non-nil maps: true exactly when
they have the same keys and the values under each key are deeply equal. -/
theorem deepEqualMap_iff (fs gs : List (String × Value))
    (hf : (fs.map Prod.fst).Nodup) (hg : (gs.map Prod.fst).Nodup) :
    deepEqualMap (some fs) (some gs) = true ↔
      ((∀ k : String, k ∈ fs.map Prod.fst ↔ k ∈ gs.map Prod.fst) ∧
        ∀ (k : String) (v w : Value), mapLookup fs k = some v → mapLookup gs k = some w →
          deepEqual v w = true) := by
  simp only [deepEqualMap, Bool.and_eq_true, decide_eq_true_eq, deepEqualEntries_iff]
  constructor
  · rintro ⟨hlen, hall⟩
    have hsub : fs.map Prod.fst ⊆ gs.map Prod.fst := by
      intro k hk
      obtain ⟨v, hv⟩ := (mapLookup_isSome_iff fs k).mpr hk
      obtain ⟨w, hw, _⟩ := hall k v ((mem_iff_mapLookup fs hf k v).mpr hv)
      exact (mapLookup_isSome_iff gs k).mp ⟨w, hw⟩
    have hperm : (fs.map Prod.fst).Perm (gs.map Prod.fst) :=
      (List.subperm_of_subset hf hsub).perm_of_length_le (by simp [hlen])
    refine ⟨fun k => hperm.mem_iff, ?_⟩
    intro k v w hv hw
    obtain ⟨w1, hw1, hd⟩ := hall k v ((mem_iff_mapLookup fs hf k v).mpr hv)
    rw [hw] at hw1
    cases hw1
    exact hd
  · rintro ⟨hkeys, hvals⟩
    have hperm : (fs.map Prod.fst).Perm (gs.map Prod.fst) :=
      (List.perm_ext_iff_of_nodup hf hg).mpr hkeys
    refine ⟨by simpa using hperm.length_eq, ?_⟩
    intro k v hkv
    have hk : k ∈ gs.map Prod.fst := (hkeys k).mp (List.mem_map_of_mem Prod.fst hkv)
    obtain ⟨w, hw⟩ := (mapLookup_isSome_iff gs k).mpr hk
    exact ⟨w, hw, hvals k v w ((mem_iff_mapLookup fs hf k v).mp hkv) hw⟩

/-! ## Theorems: equality of Objs -/

theorem initLoop_nodup (vals : List Value) :
    ∀ (keys : List String) (i : Nat) (fields fs : List (String × Value)),
      (fields.map Prod.fst).Nodup → initLoop vals keys i fields = some fs →
      (fs.map Prod.fst).Nodup := by
  intro keys
  induction keys with
  | nil =>
    intro i fields fs hnd h
    simp only [initLoop, Option.some.injEq] at h
    subst h
    exact hnd
  | cons k ks ih =>
    intro i fields fs hnd h
    simp only [initLoop] at h
    cases hv : vals[i]? with
    | none => simp [hv] at h
    | some v =>
      simp only [hv] at h
      exact ih (i + 1) (mapAssign fields k v) fs (mapAssign_keys_nodup fields k v hnd) h

/-- The map `Init` builds from distinct keys and as many values: it holds the
pairs of a key and the value at the key's index. -/
theorem init_lookup_iff (ks : List String) (vs : List Value)
    (hnd : ks.Nodup) (hlen : vs.length = ks.length) :
    ∃ fs, initLoop vs ks 0 [] = some fs ∧ (fs.map Prod.fst).Nodup ∧
      ∀ (k : String) (v : Value), mapLookup fs k = some v ↔ (k, v) ∈ ks.zip vs := by
  obtain ⟨fs, hfs, hin, hout⟩ := initLoop_spec vs ks 0 [] hnd (by omega)
  refine ⟨fs, hfs, initLoop_nodup vs ks 0 [] fs (by simp) hfs, ?_⟩
  intro k v
  constructor
  · intro hl
    have hk : k ∈ ks := by
      by_contra hk
      have h := hout k hk
      rw [hl] at h
      simp [mapLookup] at h
    obtain ⟨i, hi⟩ := List.mem_iff_getElem?.mp hk
    have h := hin i k hi
    rw [hl, Nat.zero_add] at h
    exact List.mem_iff_getElem?.mpr ⟨i, List.getElem?_zip_eq_some.mpr ⟨hi, h.symm⟩⟩
  · intro hm
    obtain ⟨i, hi⟩ := List.mem_iff_getElem?.mp hm
    obtain ⟨h1, h2⟩ := List.getElem?_zip_eq_some.mp hi
    have h := hin i k h1
    rw [Nat.zero_add] at h
    rw [h]
    exact h2

/-! ## Theorems: `str.go` -/

/-- C11: `s.Cmp(t)` on two Strs returns -1 when `s` is before `t` in the
lexicographic order of the texts, 0 when the texts are the same and 1 when
`s` is after `t`; it returns 0 exactly when `s.Eq(t)` returns true, and it
is the negation of `t.Cmp(s)`.  On an operand that is not a Str it fails with
the expected-comparable error. -/
theorem str_Cmp_spec (s t : Str) :
    (s < t ↔ s.data < t.data) ∧
    (s < t → Str.Cmp s (Value.str t) = Except.ok (-1)) ∧
    (s = t → Str.Cmp s (Value.str t) = Except.ok 0) ∧
    (t < s → Str.Cmp s (Value.str t) = Except.ok 1) ∧
    (Str.Cmp s (Value.str t) = Except.ok 0 ↔ Str.Eq s (Value.str t) = Except.ok true) ∧
    (∃ c : Int, Str.Cmp s (Value.str t) = Except.ok c ∧
      Str.Cmp t (Value.str s) = Except.ok (-c) ∧ (c = -1 ∨ c = 0 ∨ c = 1)) ∧
    (∀ v : Value, (∀ u : Str, v ≠ Value.str u) → Str.Cmp s v = Except.error Error.ExpectedCmp) := by
  have hlt : s < t → Str.Cmp s (Value.str t) = Except.ok (-1) := by
    intro h
    simp [Str.Cmp, h]
  have heq : s = t → Str.Cmp s (Value.str t) = Except.ok 0 := by
    intro h
    subst h
    simp [Str.Cmp, lt_irrefl]
  have hgt : t < s → Str.Cmp s (Value.str t) = Except.ok 1 := by
    intro h
    simp [Str.Cmp, h, lt_asymm h]
  refine ⟨String.lt_iff_toList_lt, hlt, heq, hgt, ?_, ?_, ?_⟩
  · rcases lt_trichotomy s t with h | h | h
    · simp [hlt h, Str.Eq, ne_of_lt h]
    · rw [heq h]
      simp [Str.Eq, h]
    · simp [hgt h, Str.Eq, ne_of_gt h]
  · rcases lt_trichotomy s t with h | h | h
    · refine ⟨-1, hlt h, ?_, Or.inl rfl⟩
      simp [Str.Cmp, h, lt_asymm h]
    · refine ⟨0, heq h, ?_, Or.inr (Or.inl rfl)⟩
      subst h
      simp [Str.Cmp, lt_irrefl]
    · refine ⟨1, hgt h, ?_, Or.inr (Or.inr rfl)⟩
      simp [Str.Cmp, h]
  · intro v hv
    cases v with
    | str u => exact absurd rfl (hv u)
    | null => rfl
    | int i => rfl
    | list a => rfl
    | obj f b => rfl

theorem str_Cmp_spec_witness :
    Str.Cmp "ab" (Value.str "b") = Except.ok (-1) ∧
    Str.Cmp "b" (Value.str "ab") = Except.ok 1 ∧
    Str.Cmp "ab" (Value.str "ab") = Except.ok 0 ∧
    Str.Cmp "ab" Value.null = Except.error Error.ExpectedCmp :=
  ⟨(str_Cmp_spec "ab" "b").2.1 (by rw [String.lt_iff_toList_lt]; decide),
    (str_Cmp_spec "b" "ab").2.2.2.1 (by rw [String.lt_iff_toList_lt]; decide),
    (str_Cmp_spec "ab" "ab").2.2.1 rfl,
    (str_Cmp_spec "ab" "b").2.2.2.2.2.2 Value.null (fun _ h => Value.noConfusion h)⟩

/-! ## Theorems: `null.go` -/

/-- C18: `NULL.Eq(v)` returns true when `v` is Null and false for every other
value, with no error; `NULL.Cmp(v)` fails with NullValue; `NULL.String()` is
the text null; `NULL.Add(v)` returns the Str of null followed by the text of
`v` when `v` is a Str and fails with NullValue for every other value. -/
theorem null_spec (ord : MapOrder) (v : Value) :
    (_null.Eq v = Except.ok true ↔ v = Value.null) ∧
    (_null.Eq v = Except.ok true ∨ _null.Eq v = Except.ok false) ∧
    _null.Cmp v = Except.error Error.NullValue ∧
    _null.String = Except.ok "null" ∧
    Value.String ord Value.null = Except.ok "null" ∧
    (∀ t : Str, v = Value.str t → _null.Add ord v = Except.ok (Value.str ("null" ++ t))) ∧
    ((∀ t : Str, v ≠ Value.str t) → _null.Add ord v = Except.error Error.NullValue) := by
  refine ⟨?_, ?_, rfl, rfl, rfl, ?_, ?_⟩
  · cases v <;> simp [_null.Eq]
  · cases v <;> simp [_null.Eq]
  · intro t ht
    subst ht
    simp [_null.Add, strcat_pair, Value.String, asValue]
  · intro hv
    cases v with
    | str u => exact absurd rfl (hv u)
    | null => rfl
    | int i => rfl
    | list a => rfl
    | obj f b => rfl

theorem null_spec_witness :
    _null.Add (fun es => es) (Value.str "x") = Except.ok (Value.str ("null" ++ "x")) ∧
    _null.Add (fun es => es) (Value.int 1) = Except.error Error.NullValue :=
  ⟨(null_spec (fun es => es) (Value.str "x")).2.2.2.2.2.1 "x" rfl,
    (null_spec (fun es => es) (Value.int 1)).2.2.2.2.2.2 (fun _ h => Value.noConfusion h)⟩

/-! ## Theorems: rendering of lists -/

theorem intercalate_go_append (a s : String) (l : List String) :
    ∀ b : String, String.intercalate.go (a ++ b) s l = a ++ String.intercalate.go b s l := by
  induction l with
  | nil =>
    intro b
    simp [String.intercalate.go]
  | cons x xs ih =>
    intro b
    simp only [String.intercalate.go]
    rw [← ih (b ++ s ++ x)]
    simp only [String.append_assoc]

/-- The loop of `_list.String` past the first element, when every element
renders. -/
theorem listStringLoop_ok (ord : MapOrder) (xs : List Value) :
    ∀ (rs : List String) (idx : Nat) (buf : String),
      xs.map (Value.String ord) = rs.map Except.ok → 0 < idx →
      listStringLoop ord xs idx buf =
        Except.ok (String.intercalate.go buf "," (rs.map (fun x => " " ++ x))) := by
  induction xs with
  | nil =>
    intro rs idx buf hrs _
    cases rs with
    | nil => simp [listStringLoop, String.intercalate.go]
    | cons r rs => simp at hrs
  | cons x xs ih =>
    intro rs idx buf hrs hidx
    cases rs with
    | nil => simp at hrs
    | cons r rs =>
      simp only [List.map_cons, List.cons.injEq] at hrs
      simp only [listStringLoop, hidx, if_true, hrs.1, List.map_cons, String.intercalate.go]
      rw [ih rs (idx + 1) _ hrs.2 (by omega)]
      simp only [String.append_assoc]

/-- The loop of `_list.String` when an element fails to render and every
element before it renders. -/
theorem listStringLoop_error (ord : MapOrder) (xs : List Value) :
    ∀ (i idx : Nat) (buf : String) (x : Value) (err : Error),
      xs[i]? = some x → Value.String ord x = Except.error err →
      (∀ (j : Nat) (y : Value), j < i → xs[j]? = some y → ∃ r, Value.String ord y = Except.ok r) →
      listStringLoop ord xs idx buf = Except.error err := by
  induction xs with
  | nil =>
    intro i idx buf x err hx
    simp at hx
  | cons x0 xs ih =>
    intro i idx buf x err hx herr hbefore
    cases i with
    | zero =>
      simp only [List.getElem?_cons_zero, Option.some.injEq] at hx
      subst hx
      simp only [listStringLoop, herr]
    | succ i =>
      simp only [List.getElem?_cons_succ] at hx
      obtain ⟨r, hr⟩ := hbefore 0 x0 (by omega) (by simp)
      simp only [listStringLoop, hr]
      exact ih i (idx + 1) _ x err hx herr
        (fun j y hj hy => hbefore (j + 1) y (by omega) (by simpa using hy))

/-- C12: `String()` of an empty list is the text of two brackets; for a list
whose elements all render it is the opening bracket, the renderings in index
order, each preceded by one space and separated by a comma, then a space and
the closing bracket; and when an element fails to render while those before
it render, `String()` fails with the error of that element and returns no
text.  The list is returned as it was. -/
theorem list_String_spec (ord : MapOrder) (ls : _list) :
    (sliceLen ls.array = 0 → ls.String ord = (ls, Except.ok "[]")) ∧
    (∀ (xs : List Value) (rs : List String), ls.array = some xs →
      xs.map (Value.String ord) = rs.map Except.ok →
      ls.String ord = (ls, Except.ok (listText rs))) ∧
    (∀ (xs : List Value) (i : Nat) (x : Value) (err : Error), ls.array = some xs →
      xs[i]? = some x → Value.String ord x = Except.error err →
      (∀ (j : Nat) (y : Value), j < i → xs[j]? = some y →
        ∃ r, Value.String ord y = Except.ok r) →
      ls.String ord = (ls, Except.error err)) := by
  obtain ⟨a⟩ := ls
  refine ⟨?_, ?_, ?_⟩
  · intro h
    cases a with
    | none => rfl
    | some xs =>
      simp only [sliceLen] at h
      simp [_list.String, _list.toValue, Value.String, h]
  · intro xs rs ha hrs
    simp only at ha
    subst ha
    cases xs with
    | nil =>
      cases rs with
      | nil => rfl
      | cons r rs => simp at hrs
    | cons x xs =>
      cases rs with
      | nil => simp at hrs
      | cons r rs =>
        simp only [List.map_cons, List.cons.injEq] at hrs
        simp only [_list.String, _list.toValue, Value.String, List.length_cons,
          Nat.add_one_ne_zero, if_false, listStringLoop, Nat.lt_irrefl, hrs.1]
        rw [listStringLoop_ok ord xs rs 1 _ hrs.2 (by omega)]
        simp only [listText, List.map_cons, String.intercalate]
        rw [String.append_assoc "[" " " r, intercalate_go_append]
  · intro xs i x err ha hx herr hbefore
    simp only at ha
    subst ha
    have hne : xs.length ≠ 0 := by
      intro h0
      have hnil : xs = [] := List.length_eq_zero.mp h0
      subst hnil
      simp at hx
    simp only [_list.String, _list.toValue, Value.String, hne, if_false,
      listStringLoop_error ord xs i 0 "[" x err hx herr hbefore]

theorem list_String_spec_witness :
    (NewList (some [Value.str "a", Value.int 1, Value.null])).String (fun es => es) =
      (NewList (some [Value.str "a", Value.int 1, Value.null]), Except.ok "[ a, 1, null ]") ∧
    (NewList (some [Value.str "a", NewObj.toValue, Value.null])).String (fun es => es) =
      (NewList (some [Value.str "a", NewObj.toValue, Value.null]),
        Except.error Error.UninitializedObj) ∧
    (NewList (some [])).String (fun es => es) = (NewList (some []), Except.ok "[]") :=
  ⟨(list_String_spec (fun es => es)
      (NewList (some [Value.str "a", Value.int 1, Value.null]))).2.1
      [Value.str "a", Value.int 1, Value.null] ["a", "1", "null"] rfl rfl,
    (list_String_spec (fun es => es)
      (NewList (some [Value.str "a", NewObj.toValue, Value.null]))).2.2
      [Value.str "a", NewObj.toValue, Value.null] 1 NewObj.toValue Error.UninitializedObj
      rfl rfl rfl
      (fun j y hj hy => by
        have hj0 : j = 0 := by omega
        subst hj0
        simp only [List.getElem?_cons_zero, Option.some.injEq] at hy
        subst hy
        exact ⟨"a", rfl⟩),
    (list_String_spec (fun es => es) (NewList (some []))).1 rfl⟩

/-! ## Theorems: `Init` on any key list -/

theorem exists_last_index (keys : List String) (k : String) (hk : k ∈ keys) :
    ∃ j : Nat, keys[j]? = some k ∧ ∀ j1 : Nat, j < j1 → keys[j1]? ≠ some k := by
  induction keys with
  | nil => simp at hk
  | cons k0 ks ih =>
    by_cases hks : k ∈ ks
    · obtain ⟨j, hj, hlast⟩ := ih hks
      refine ⟨j + 1, by simpa using hj, ?_⟩
      intro j1 hj1
      cases j1 with
      | zero => omega
      | succ j1 =>
        simp only [List.getElem?_cons_succ]
        exact hlast j1 (by omega)
    · have hk0 : k = k0 := by
        simp only [List.mem_cons] at hk
        rcases hk with hk | hk
        · exact hk
        · exact absurd hk hks
      subst hk0
      refine ⟨0, by simp, ?_⟩
      intro j1 hj1
      cases j1 with
      | zero => omega
      | succ j1 =>
        simp only [List.getElem?_cons_succ]
        intro hc
        exact hks (List.mem_iff_getElem?.mpr ⟨j1, hc⟩)

/-- The loop of `Init` on any key list, when `vals` is long enough: the entry
of a key holds the value at the last index of the key. -/
theorem initLoop_last (vals : List Value) :
    ∀ (keys : List String) (i : Nat) (fields : List (String × Value)),
      i + keys.length ≤ vals.length →
      ∃ fs, initLoop vals keys i fields = some fs ∧
        (∀ (j : Nat) (k : String), keys[j]? = some k →
          (∀ j1 : Nat, j < j1 → keys[j1]? ≠ some k) → mapLookup fs k = vals[i + j]?) ∧
        (∀ k, k ∉ keys → mapLookup fs k = mapLookup fields k) := by
  intro keys
  induction keys with
  | nil =>
    intro i fields _
    exact ⟨fields, rfl, by simp, by simp⟩
  | cons k ks ih =>
    intro i fields hlen
    simp only [List.length_cons] at hlen
    have hi : i < vals.length := by omega
    obtain ⟨fs, hfs, hin, hout⟩ := ih (i + 1) (mapAssign fields k vals[i]) (by omega)
    refine ⟨fs, ?_, ?_, ?_⟩
    · simp only [initLoop, List.getElem?_eq_getElem hi, hfs]
    · intro j k1 hj hlast
      cases j with
      | zero =>
        simp only [List.getElem?_cons_zero, Option.some.injEq] at hj
        subst hj
        have hk : k ∉ ks := by
          intro hmem
          obtain ⟨j1, hj1⟩ := List.mem_iff_getElem?.mp hmem
          exact hlast (j1 + 1) (by omega) (by simpa using hj1)
        rw [hout k hk, mapLookup_mapAssign_same]
        simp [List.getElem?_eq_getElem hi]
      | succ j =>
        simp only [List.getElem?_cons_succ] at hj
        have hlast1 : ∀ j1 : Nat, j < j1 → ks[j1]? ≠ some k1 := by
          intro j1 hj1
          have h := hlast (j1 + 1) (by omega)
          simpa using h
        rw [hin j k1 hj hlast1]
        congr 1
        omega
    · intro k1 hk1
      simp only [List.mem_cons, not_or] at hk1
      rw [hout k1 hk1.2, mapLookup_mapAssign_other _ _ _ _ hk1.1]

/-- The loop of `Init` aborts when `vals` is too short for the keys left. -/
theorem initLoop_abort (vals : List Value) :
    ∀ (keys : List String) (i : Nat) (fields : List (String × Value)),
      i ≤ vals.length → vals.length < i + keys.length →
      initLoop vals keys i fields = none := by
  intro keys
  induction keys with
  | nil =>
    intro i fields h1 h2
    simp only [List.length_nil] at h2
    omega
  | cons k ks ih =>
    intro i fields h1 h2
    simp only [List.length_cons] at h2
    by_cases hi : i < vals.length
    · simp only [initLoop, List.getElem?_eq_getElem hi]
      exact ih (i + 1) _ (by omega) (by omega)
    · have hnone : vals[i]? = none := List.getElem?_eq_none (by omega)
      simp only [initLoop, hnone]

/-- What `Init` leaves, for any key list and at least as many values: an
initialized Obj with one field per distinct key, the field of a key holding
the value at the last index of the key. -/
theorem init_any_keys (o : _obj) (d : ObjDef) (vals : List Value)
    (hlen : d.Keys.length ≤ vals.length) :
    ∃ o1 : _obj, o.Init d vals = some o1 ∧ o1.inited = true ∧
      (mapKeys o1.fields).Nodup ∧
      (∀ k : String, k ∈ mapKeys o1.fields ↔ k ∈ d.Keys) ∧
      ∀ (j : Nat) (k : String), d.Keys[j]? = some k →
        (∀ j1 : Nat, j < j1 → d.Keys[j1]? ≠ some k) →
        ∃ v, vals[j]? = some v ∧ o1.GetField k = (o1, Except.ok v) := by
  obtain ⟨fs, hfs, hin, hout⟩ := initLoop_last vals d.Keys 0 [] (by omega)
  have hget : ∀ (j : Nat) (k : String), d.Keys[j]? = some k →
      (∀ j1 : Nat, j < j1 → d.Keys[j1]? ≠ some k) →
      ∃ v, vals[j]? = some v ∧ mapLookup fs k = some v := by
    intro j k hj hlast
    have hjlt : j < vals.length := by
      have := (List.getElem?_eq_some.mp hj).1
      omega
    have h := hin j k hj hlast
    rw [Nat.zero_add, List.getElem?_eq_getElem hjlt] at h
    exact ⟨vals[j], List.getElem?_eq_getElem hjlt, h⟩
  refine ⟨⟨some fs, true⟩, by simp only [_obj.Init, hfs], rfl,
    initLoop_nodup vals d.Keys 0 [] fs (by simp) hfs, ?_, ?_⟩
  · intro k
    simp only [mapKeys]
    rw [← mapLookup_isSome_iff]
    constructor
    · rintro ⟨v, hv⟩
      by_contra hk
      have h := hout k hk
      rw [hv] at h
      simp [mapLookup] at h
    · intro hk
      obtain ⟨j, hj, hlast⟩ := exists_last_index d.Keys k hk
      obtain ⟨v, _, hv⟩ := hget j k hj hlast
      exact ⟨v, hv⟩
  · intro j k hj hlast
    obtain ⟨v, hv, hl⟩ := hget j k hj hlast
    exact ⟨v, hv, by simp [_obj.GetField, mapGet, hl]⟩

/-- C20: for any key list, keys repeated or not, and as many values, `Init`
leaves an initialized Obj with one field per distinct key, and `GetField` of a
key returns the value at the last index at which the key occurs. -/
theorem obj_Init_duplicates (o : _obj) (d : ObjDef) (vals : List Value)
    (hlen : vals.length = d.Keys.length) :
    ∃ o1 : _obj, o.Init d vals = some o1 ∧ o1.inited = true ∧
      (mapKeys o1.fields).Nodup ∧
      (∀ k : String, k ∈ mapKeys o1.fields ↔ k ∈ d.Keys) ∧
      mapLen o1.fields = d.Keys.dedup.length ∧
      ∀ (j : Nat) (k : String), d.Keys[j]? = some k →
        (∀ j1 : Nat, j < j1 → d.Keys[j1]? ≠ some k) →
        ∃ v, vals[j]? = some v ∧ o1.GetField k = (o1, Except.ok v) := by
  obtain ⟨o1, hinit, hflag, hnd, hkeys, hget⟩ := init_any_keys o d vals (by omega)
  refine ⟨o1, hinit, hflag, hnd, hkeys, ?_, hget⟩
  have hperm : (mapKeys o1.fields).Perm d.Keys.dedup :=
    (List.perm_ext_iff_of_nodup hnd (List.nodup_dedup _)).mpr
      (fun k => by rw [hkeys k, List.mem_dedup])
  have hlen1 : mapLen o1.fields = (mapKeys o1.fields).length := by
    cases o1.fields <;> simp [mapLen, mapKeys]
  rw [hlen1, hperm.length_eq]

theorem obj_Init_duplicates_witness :
    ∃ o1 : _obj,
      NewObj.Init ⟨["x", "y", "x"]⟩ [Value.int 1, Value.int 2, Value.int 3] = some o1 ∧
      o1.inited = true ∧ (mapKeys o1.fields).Nodup ∧
      (∀ k : String, k ∈ mapKeys o1.fields ↔ k ∈ (["x", "y", "x"] : List String)) ∧
      mapLen o1.fields = (["x", "y", "x"] : List String).dedup.length ∧
      ∀ (j : Nat) (k : String), (["x", "y", "x"] : List String)[j]? = some k →
        (∀ j1 : Nat, j < j1 → (["x", "y", "x"] : List String)[j1]? ≠ some k) →
        ∃ v, [Value.int 1, Value.int 2, Value.int 3][j]? = some v ∧
          o1.GetField k = (o1, Except.ok v) :=
  obj_Init_duplicates NewObj ⟨["x", "y", "x"]⟩ [Value.int 1, Value.int 2, Value.int 3] rfl

/-! ## Theorems: run-time aborts -/

/-- C13 fails as stated: `Init` with a key and no value reaches the
out-of-range access `vals[0]` and aborts. -/
theorem obj_Init_short_vals_aborts :
    NewObj.Init ⟨["x"]⟩ [] = none :=
  rfl

/-! ## Theorems: the field names of an Obj -/

theorem apply_keeps_keys (ord : MapOrder) (o : _obj) (op : ObjOp)
    (hinit : o.inited = true) (hop : op.isInit = false) :
    ∃ o1 : _obj, o.apply ord op = some o1 ∧ o1.inited = true ∧
      mapKeys o1.fields = mapKeys o.fields := by
  obtain ⟨fields, inited⟩ := o
  simp only at hinit
  subst hinit
  cases op with
  | Init d vals => simp [ObjOp.isInit] at hop
  | TypeOf => exact ⟨_, rfl, rfl, rfl⟩
  | String => exact ⟨_, rfl, rfl, rfl⟩
  | Eq v => cases v <;> exact ⟨_, rfl, rfl, rfl⟩
  | Cmp v => exact ⟨_, rfl, rfl, rfl⟩
  | Add v => cases v <;> exact ⟨_, rfl, rfl, rfl⟩
  | GetField key =>
    cases h : mapGet fields key with
    | none => exact ⟨_, rfl, by simp [_obj.GetField, h], by simp [_obj.GetField, h]⟩
    | some w => exact ⟨_, rfl, by simp [_obj.GetField, h], by simp [_obj.GetField, h]⟩
  | PutField key val =>
    cases fields with
    | none => exact ⟨_, rfl, rfl, rfl⟩
    | some fs =>
      cases h : mapLookup fs key with
      | none => exact ⟨_, rfl, by simp [_obj.PutField, h], by simp [_obj.PutField, h]⟩
      | some w =>
        have hk : key ∈ fs.map Prod.fst := (mapLookup_isSome_iff fs key).mp ⟨w, h⟩
        exact ⟨_, rfl, by simp [_obj.PutField, h],
          by simp [_obj.PutField, h, mapKeys, mapAssign_keys_of_mem fs key val hk]⟩

/-- C14 fails as stated: a second `Init` in the sequence replaces the field
names. -/
theorem second_Init_changes_field_names :
    ∃ o1 o2 : _obj, NewObj.Init ⟨["x"]⟩ [Value.int 1] = some o1 ∧
      o1.applyAll (fun es => es) [ObjOp.Init ⟨["y"]⟩ [Value.int 2]] = some o2 ∧
      mapKeys o1.fields = ["x"] ∧ mapKeys o2.fields = ["y"] :=
  ⟨⟨some [("x", Value.int 1)], true⟩, ⟨some [("y", Value.int 2)], true⟩, rfl, rfl, rfl, rfl⟩

/-- C14 as amended: after any sequence of TypeOf, String, Eq, Cmp, Add,
GetField and PutField calls on an initialized Obj, the Obj is still
initialized and has the field names it had before the sequence; an `Init`
that returns leaves the Obj initialized with the keys of its definition as
field names. -/
theorem field_names_fixed_without_Init (ord : MapOrder) :
    (∀ (ops : List ObjOp) (o : _obj), o.inited = true →
      (∀ op ∈ ops, ObjOp.isInit op = false) →
      ∃ o1 : _obj, o.applyAll ord ops = some o1 ∧ o1.inited = true ∧
        mapKeys o1.fields = mapKeys o.fields) ∧
    (∀ (o o1 : _obj) (d : ObjDef) (vals : List Value), o.Init d vals = some o1 →
      o1.inited = true ∧ ∀ k : String, k ∈ mapKeys o1.fields ↔ k ∈ d.Keys) := by
  constructor
  · intro ops
    induction ops with
    | nil =>
      intro o hinit _
      exact ⟨o, rfl, hinit, rfl⟩
    | cons op ops ih =>
      intro o hinit hops
      obtain ⟨o1, h1, hi1, hk1⟩ :=
        apply_keeps_keys ord o op hinit (hops op (List.mem_cons_self _ _))
      obtain ⟨o2, h2, hi2, hk2⟩ :=
        ih o1 hi1 (fun op1 hm => hops op1 (List.mem_cons_of_mem _ hm))
      exact ⟨o2, by simp only [_obj.applyAll, h1, h2], hi2, hk2.trans hk1⟩
  · intro o o1 d vals h
    by_cases hlen : d.Keys.length ≤ vals.length
    · obtain ⟨o2, h2, hi2, _, hk2, _⟩ := init_any_keys o d vals hlen
      rw [h] at h2
      cases h2
      exact ⟨hi2, hk2⟩
    · have hnone : o.Init d vals = none := by
        simp only [_obj.Init, initLoop_abort vals d.Keys 0 [] (by omega) (by omega)]
      rw [hnone] at h
      cases h

theorem field_names_fixed_without_Init_witness :
    ∃ o1 : _obj,
      (_obj.mk (some [("x", Value.int 1), ("y", Value.int 2)]) true).applyAll (fun es => es)
        [ObjOp.PutField "x" (Value.int 5), ObjOp.PutField "z" Value.null, ObjOp.String,
          ObjOp.GetField "y"] = some o1 ∧
      o1.inited = true ∧
      mapKeys o1.fields =
        mapKeys (_obj.mk (some [("x", Value.int 1), ("y", Value.int 2)]) true).fields :=
  (field_names_fixed_without_Init (fun es => es)).1
    [ObjOp.PutField "x" (Value.int 5), ObjOp.PutField "z" Value.null, ObjOp.String,
      ObjOp.GetField "y"]
    (_obj.mk (some [("x", Value.int 1), ("y", Value.int 2)]) true) rfl
    (by
      intro op hop
      simp only [List.mem_cons, List.mem_singleton, List.not_mem_nil, or_false] at hop
      rcases hop with h | h | h | h <;> subst h <;> rfl)

/-! ## Theorems: `String` and the iteration order of maps -/

theorem renderEntries_length (ord : MapOrder) (fs : List (String × Value)) :
    (renderEntries ord fs).length = fs.length := by
  induction fs with
  | nil => simp [renderEntries]
  | cons e rest ih =>
    obtain ⟨k, v⟩ := e
    simp [renderEntries, ih]

theorem perm_eq_of_length_le_one {α : Type} (l es : List α) (hp : l.Perm es)
    (hlen : es.length ≤ 1) : l = es := by
  cases es with
  | nil => exact List.Perm.eq_nil hp
  | cons e rest =>
    cases rest with
    | nil => exact List.perm_singleton.mp hp
    | cons e1 rest1 =>
      simp only [List.length_cons] at hlen
      omega

/-- C15 fails as stated: an initialized Obj with the fields x and y has two
renderings, one for each order in which the loop may visit the two entries,
and each of the two orders visits every entry once. -/
theorem obj_String_depends_on_order :
    (_obj.String (fun es => es) ⟨some [("x", Value.int 1), ("y", Value.int 2)], true⟩).2 =
      Except.ok "obj \x7b x: 1, y: 2 \x7d" ∧
    (_obj.String List.reverse ⟨some [("x", Value.int 1), ("y", Value.int 2)], true⟩).2 =
      Except.ok "obj \x7b y: 2, x: 1 \x7d" ∧
    MapOrder.Visits (fun es => es) ∧ MapOrder.Visits List.reverse ∧
    (_obj.String (fun es => es) ⟨some [("x", Value.int 1), ("y", Value.int 2)], true⟩).2 ≠
      (_obj.String List.reverse ⟨some [("x", Value.int 1), ("y", Value.int 2)], true⟩).2 := by
  refine ⟨rfl, rfl, fun es => List.Perm.refl es, fun es => List.reverse_perm es, ?_⟩
  have h1 : (_obj.String (fun es => es)
      ⟨some [("x", Value.int 1), ("y", Value.int 2)], true⟩).2 =
      Except.ok "obj \x7b x: 1, y: 2 \x7d" := rfl
  have h2 : (_obj.String List.reverse
      ⟨some [("x", Value.int 1), ("y", Value.int 2)], true⟩).2 =
      Except.ok "obj \x7b y: 2, x: 1 \x7d" := rfl
  rw [h1, h2]
  intro h
  have h3 : "obj \x7b x: 1, y: 2 \x7d" = "obj \x7b y: 2, x: 1 \x7d" := Except.ok.inj h
  exact absurd h3 (by decide)

mutual
/-- The rendering of a value in which no map has two entries is the same
under any two iteration orders. -/
theorem String_order_free (ord1 ord2 : MapOrder) (h1 : ord1.Visits) (h2 : ord2.Visits) :
    ∀ v : Value, Value.smallMaps v = true → Value.String ord1 v = Value.String ord2 v
  | Value.null, _ => rfl
  | Value.str _, _ => rfl
  | Value.int _, _ => rfl
  | Value.list none, _ => rfl
  | Value.list (some xs), h => by
    simp only [Value.smallMaps] at h
    simp only [Value.String, listStringLoop_order_free ord1 ord2 h1 h2 xs h 0 "["]
  | Value.obj none _, _ => rfl
  | Value.obj (some fs) inited, h => by
    simp only [Value.smallMaps, Bool.and_eq_true, decide_eq_true_eq] at h
    have hr := renderEntries_order_free ord1 ord2 h1 h2 fs h.2
    have hlen : (renderEntries ord2 fs).length ≤ 1 := by
      rw [renderEntries_length]
      exact h.1
    have e1 : ord1 (renderEntries ord2 fs) = renderEntries ord2 fs :=
      perm_eq_of_length_le_one _ _ (h1 _) hlen
    have e2 : ord2 (renderEntries ord2 fs) = renderEntries ord2 fs :=
      perm_eq_of_length_le_one _ _ (h2 _) hlen
    simp only [Value.String, hr, e1, e2]
/-- The loop of `_list.String` under two iteration orders. -/
theorem listStringLoop_order_free (ord1 ord2 : MapOrder) (h1 : ord1.Visits)
    (h2 : ord2.Visits) :
    ∀ xs : List Value, smallMapsElems xs = true → ∀ (idx : Nat) (buf : String),
      listStringLoop ord1 xs idx buf = listStringLoop ord2 xs idx buf
  | [], _, _, _ => rfl
  | x :: xs, h, idx, buf => by
    simp only [smallMapsElems, Bool.and_eq_true] at h
    simp only [listStringLoop, String_order_free ord1 ord2 h1 h2 x h.1]
    cases Value.String ord2 x with
    | error err => rfl
    | ok s => exact listStringLoop_order_free ord1 ord2 h1 h2 xs h.2 _ _
/-- The renderings of the values of a map under two iteration orders. -/
theorem renderEntries_order_free (ord1 ord2 : MapOrder) (h1 : ord1.Visits)
    (h2 : ord2.Visits) :
    ∀ fs : List (String × Value), smallMapsEntries fs = true →
      renderEntries ord1 fs = renderEntries ord2 fs
  | [], _ => rfl
  | (k, v) :: rest, h => by
    simp only [smallMapsEntries, Bool.and_eq_true] at h
    simp only [renderEntries, String_order_free ord1 ord2 h1 h2 v h.1,
      renderEntries_order_free ord1 ord2 h1 h2 rest h.2]
end

/-- C15 as amended: `String()` returns the receiver as it was, for Null, Str,
List and Obj; under one iteration order two calls have the same outcome; and
for a value in which no map has two or more entries the outcome is the same
under every iteration order. -/
theorem String_deterministic_small_maps (ord1 ord2 : MapOrder)
    (h1 : ord1.Visits) (h2 : ord2.Visits) :
    (∀ ls : _list, (ls.String ord1).1 = ls) ∧
    (∀ o : _obj, (o.String ord1).1 = o) ∧
    (∀ s : Str, Str.String s = Except.ok s) ∧
    _null.String = Except.ok "null" ∧
    (∀ v : Value, Value.smallMaps v = true → Value.String ord1 v = Value.String ord2 v) ∧
    (∀ ls : _list, Value.smallMaps ls.toValue = true → ls.String ord1 = ls.String ord2) ∧
    (∀ o : _obj, Value.smallMaps o.toValue = true → o.String ord1 = o.String ord2) := by
  refine ⟨fun _ => rfl, fun _ => rfl, fun _ => rfl, rfl,
    String_order_free ord1 ord2 h1 h2, ?_, ?_⟩
  · intro ls h
    simp only [_list.String, String_order_free ord1 ord2 h1 h2 _ h]
  · intro o h
    simp only [_obj.String, String_order_free ord1 ord2 h1 h2 _ h]

theorem String_deterministic_small_maps_witness :
    _obj.String (fun es => es) ⟨some [("x", Value.list (some [Value.int 1, Value.null]))], true⟩ =
      _obj.String List.reverse
        ⟨some [("x", Value.list (some [Value.int 1, Value.null]))], true⟩ :=
  (String_deterministic_small_maps (fun es => es) List.reverse
    (fun es => List.Perm.refl es) (fun es => List.reverse_perm es)).2.2.2.2.2.2
    ⟨some [("x", Value.list (some [Value.int 1, Value.null]))], true⟩ rfl

/-! ## Theorems: `Eq` is reflexive -/

theorem deepEqual_list (a b : Option (List Value)) :
    deepEqual (Value.list a) (Value.list b) = deepEqualSlice a b := by
  cases a <;> cases b <;> simp [deepEqual, deepEqualSlice]

theorem deepEqual_obj_inited (f g : Option (List (String × Value))) :
    deepEqual (Value.obj f true) (Value.obj g true) = deepEqualMap f g := by
  cases f <;> cases g <;> simp [deepEqual, deepEqualMap]

/-- C16: `v.Eq(v)` returns true with no error when `v` is Null, a Str, a List
(nil, empty, or with elements nested to any depth) or an initialized Obj, and
fails with UninitializedObj when `v` is an uninitialized Obj. -/
theorem Eq_reflexive :
    _null.Eq Value.null = Except.ok true ∧
    (∀ s : Str, Str.Eq s (Value.str s) = Except.ok true) ∧
    (∀ ls : _list, Value.WF ls.toValue = true → ls.Eq ls.toValue = (ls, Except.ok true)) ∧
    (∀ o : _obj, o.inited = true → Value.WF o.toValue = true →
      o.Eq o.toValue = (o, Except.ok true)) ∧
    (∀ o : _obj, o.inited = false →
      o.Eq o.toValue = (o, Except.error Error.UninitializedObj)) := by
  refine ⟨rfl, ?_, ?_, ?_, ?_⟩
  · intro s
    simp [Str.Eq]
  · intro ls h
    have hr := deepEqual_refl ls.toValue h
    simp only [_list.toValue, deepEqual_list] at hr
    simp only [_list.Eq, _list.toValue, hr]
  · rintro ⟨fields, inited⟩ hinit h
    simp only at hinit
    subst hinit
    have hr := deepEqual_refl _ h
    simp only [_obj.toValue, deepEqual_obj_inited] at hr
    simp [_obj.Eq, _obj.toValue, hr]
  · rintro ⟨fields, inited⟩ hinit
    simp only at hinit
    subst hinit
    rfl

theorem Eq_reflexive_witness :
    (NewList (some [Value.list none, Value.list (some [Value.str "a"]),
        Value.obj (some [("x", Value.int 1)]) true])).Eq
      (NewList (some [Value.list none, Value.list (some [Value.str "a"]),
        Value.obj (some [("x", Value.int 1)]) true])).toValue =
      (NewList (some [Value.list none, Value.list (some [Value.str "a"]),
        Value.obj (some [("x", Value.int 1)]) true]), Except.ok true) ∧
    (_obj.mk (some [("x", Value.int 1), ("y", Value.list none)]) true).Eq
      (_obj.mk (some [("x", Value.int 1), ("y", Value.list none)]) true).toValue =
      (_obj.mk (some [("x", Value.int 1), ("y", Value.list none)]) true, Except.ok true) ∧
    NewObj.Eq NewObj.toValue = (NewObj, Except.error Error.UninitializedObj) :=
  ⟨Eq_reflexive.2.2.1 _ (by simp [_list.toValue, NewList, Value.WF, WFElems, WFEntries]),
    Eq_reflexive.2.2.2.1 _ rfl (by simp [_obj.toValue, Value.WF, WFEntries]),
    Eq_reflexive.2.2.2.2 NewObj rfl⟩

/-! ## Theorems: `Eq` and the order of its operands -/

theorem WFEntries_mem (fs : List (String × Value)) (h : WFEntries fs = true)
    (k : String) (v : Value) (hm : (k, v) ∈ fs) : Value.WF v = true := by
  induction fs with
  | nil => simp at hm
  | cons e rest ih =>
    obtain ⟨k0, v0⟩ := e
    simp only [WFEntries, Bool.and_eq_true] at h
    rcases List.mem_cons.mp hm with heq | hm1
    · cases heq
      exact h.1
    · exact ih h.2 hm1

mutual
/-- Deep equality of well formed values holds in both directions or in none. -/
theorem deepEqual_swap : ∀ v w : Value, Value.WF v = true → Value.WF w = true →
    deepEqual v w = true → deepEqual w v = true
  | Value.null, w, _, _, h => by
    cases w <;> simp_all [deepEqual]
  | Value.str s, w, _, _, h => by
    cases w <;> simp_all [deepEqual]
  | Value.int i, w, _, _, h => by
    cases w <;> simp_all [deepEqual]
  | Value.list none, w, _, _, h => by
    cases w with
    | list b => cases b <;> simp_all [deepEqual]
    | null => simp [deepEqual] at h
    | str t => simp [deepEqual] at h
    | int j => simp [deepEqual] at h
    | obj g j => simp [deepEqual] at h
  | Value.list (some xs), w, hv, hw, h => by
    cases w with
    | list b =>
      cases b with
      | none => simp [deepEqual] at h
      | some ys =>
        simp only [Value.WF] at hv hw
        simp only [deepEqual] at h ⊢
        exact deepEqualElems_swap xs ys hv hw h
    | null => simp [deepEqual] at h
    | str t => simp [deepEqual] at h
    | int j => simp [deepEqual] at h
    | obj g j => simp [deepEqual] at h
  | Value.obj none i, w, _, _, h => by
    cases w with
    | obj g j => cases g <;> simp_all [deepEqual]
    | null => simp [deepEqual] at h
    | str t => simp [deepEqual] at h
    | int j => simp [deepEqual] at h
    | list b => simp [deepEqual] at h
  | Value.obj (some fs) i, w, hv, hw, h => by
    cases w with
    | obj g j =>
      cases g with
      | none => simp [deepEqual] at h
      | some gs =>
        simp only [Value.WF, Bool.and_eq_true, decide_eq_true_eq] at hv hw
        have hmap : deepEqualMap (some fs) (some gs) = true ∧ i = j := by
          simpa [deepEqual, deepEqualMap, and_assoc] using h
        have hswap : deepEqualMap (some gs) (some fs) = true := by
          rw [deepEqualMap_iff gs fs hw.1 hv.1]
          obtain ⟨hkeys, hvals⟩ := (deepEqualMap_iff fs gs hv.1 hw.1).mp hmap.1
          refine ⟨fun k => (hkeys k).symm, ?_⟩
          intro k w1 v1 hw1 hv1
          have hmem : (k, v1) ∈ fs := (mem_iff_mapLookup fs hv.1 k v1).mpr hv1
          have hwf1 : Value.WF w1 = true :=
            WFEntries_mem gs hw.2 k w1 ((mem_iff_mapLookup gs hw.1 k w1).mpr hw1)
          exact deepEqualEntries_swap fs hv.2 k v1 hmem w1 hwf1 (hvals k v1 w1 hv1 hw1)
        have hgoal : deepEqualMap (some gs) (some fs) = true ∧ j = i := ⟨hswap, hmap.2.symm⟩
        simpa [deepEqual, deepEqualMap, and_assoc] using hgoal
    | null => simp [deepEqual] at h
    | str t => simp [deepEqual] at h
    | int j => simp [deepEqual] at h
    | list b => simp [deepEqual] at h
/-- Deep equality of the elements of two slices, the slices swapped. -/
theorem deepEqualElems_swap : ∀ xs ys : List Value, WFElems xs = true → WFElems ys = true →
    deepEqualElems xs ys = true → deepEqualElems ys xs = true
  | [], ys, _, _, h => by
    cases ys with
    | nil => rfl
    | cons y ys => simp [deepEqualElems] at h
  | x :: xs, ys, hx, hy, h => by
    cases ys with
    | nil => simp [deepEqualElems] at h
    | cons y ys =>
      simp only [WFElems, Bool.and_eq_true] at hx hy
      simp only [deepEqualElems, Bool.and_eq_true] at h ⊢
      exact ⟨deepEqual_swap x y hx.1 hy.1 h.1, deepEqualElems_swap xs ys hx.2 hy.2 h.2⟩
/-- Deep equality of a value of a map with any value, the two swapped. -/
theorem deepEqualEntries_swap : ∀ fs : List (String × Value), WFEntries fs = true →
    ∀ (k : String) (v : Value), (k, v) ∈ fs → ∀ w : Value, Value.WF w = true →
    deepEqual v w = true → deepEqual w v = true
  | [], _, _, _, hm, _, _, _ => by simp at hm
  | (k0, v0) :: rest, hwf, k, v, hm, w, hw, h => by
    simp only [WFEntries, Bool.and_eq_true] at hwf
    rcases List.mem_cons.mp hm with heq | hm1
    · cases heq
      exact deepEqual_swap v0 w hwf.1 hw h
    · exact deepEqualEntries_swap rest hwf.2 k v hm1 w hw h
end

theorem deepEqual_comm (v w : Value) (hv : Value.WF v = true) (hw : Value.WF w = true) :
    deepEqual v w = deepEqual w v := by
  rw [Bool.eq_iff_iff]
  exact ⟨deepEqual_swap v w hv hw, deepEqual_swap w v hw hv⟩

/-- C17 fails as stated: with an initialized Obj `a` and an uninitialized Obj
`b`, `a.Eq(b)` returns false with no error and `b.Eq(a)` fails; the same holds
with Null in the place of `a`. -/
theorem Eq_uninitialized_operand_differs :
    Value.Eq (Value.obj (some []) true) NewObj.toValue = some (Except.ok false) ∧
    Value.Eq NewObj.toValue (Value.obj (some []) true) =
      some (Except.error Error.UninitializedObj) ∧
    NewObj.Init ⟨[]⟩ [] = some ⟨some [], true⟩ ∧
    Value.Eq Value.null NewObj.toValue = some (Except.ok false) ∧
    Value.Eq NewObj.toValue Value.null = some (Except.error Error.UninitializedObj) :=
  ⟨rfl, rfl, rfl, rfl, rfl⟩

/-- C17 as amended: for values `a` and `b` that are Null, a Str, a List or an
initialized Obj, `a.Eq(b)` and `b.Eq(a)` return the same boolean and no
error; with an uninitialized Obj as the receiver `Eq` fails with
UninitializedObj whatever the operand. -/
theorem Eq_symmetric_when_initialized :
    (∀ a b : Value, Value.WF a = true → Value.WF b = true →
      (∀ i : Int, a ≠ Value.int i) → (∀ i : Int, b ≠ Value.int i) →
      (∀ f : Option (List (String × Value)), a ≠ Value.obj f false) →
      (∀ f : Option (List (String × Value)), b ≠ Value.obj f false) →
      Value.Eq a b = Value.Eq b a ∧ ∃ r : Bool, Value.Eq a b = some (Except.ok r)) ∧
    (∀ (f : Option (List (String × Value))) (b : Value),
      Value.Eq (Value.obj f false) b = some (Except.error Error.UninitializedObj)) := by
  constructor
  · intro a b ha hb hai hbi hao hbo
    cases a with
    | int i => exact absurd rfl (hai i)
    | null =>
      cases b with
      | int j => exact absurd rfl (hbi j)
      | null => exact ⟨rfl, true, rfl⟩
      | str t => exact ⟨rfl, false, rfl⟩
      | list y => exact ⟨rfl, false, rfl⟩
      | obj g j =>
        cases j with
        | false => exact absurd rfl (hbo g)
        | true => exact ⟨rfl, false, rfl⟩
    | str s =>
      cases b with
      | int j => exact absurd rfl (hbi j)
      | null => exact ⟨rfl, false, rfl⟩
      | str t =>
        refine ⟨?_, decide (s = t), rfl⟩
        simp only [Value.Eq, Str.Eq, Option.some.injEq, Except.ok.injEq, decide_eq_decide]
        exact eq_comm
      | list y => exact ⟨rfl, false, rfl⟩
      | obj g j =>
        cases j with
        | false => exact absurd rfl (hbo g)
        | true => exact ⟨rfl, false, rfl⟩
    | list x =>
      cases b with
      | int j => exact absurd rfl (hbi j)
      | null => exact ⟨rfl, false, rfl⟩
      | str t => exact ⟨rfl, false, rfl⟩
      | list y =>
        refine ⟨?_, deepEqualSlice x y, rfl⟩
        have h := deepEqual_comm _ _ ha hb
        simp only [deepEqual_list] at h
        simp only [Value.Eq, _list.Eq, h]
      | obj g j =>
        cases j with
        | false => exact absurd rfl (hbo g)
        | true => exact ⟨rfl, false, rfl⟩
    | obj f i =>
      cases i with
      | false => exact absurd rfl (hao f)
      | true =>
        cases b with
        | int j => exact absurd rfl (hbi j)
        | null => exact ⟨rfl, false, rfl⟩
        | str t => exact ⟨rfl, false, rfl⟩
        | list y => exact ⟨rfl, false, rfl⟩
        | obj g j =>
          cases j with
          | false => exact absurd rfl (hbo g)
          | true =>
            refine ⟨?_, deepEqualMap f g, rfl⟩
            have h := deepEqual_comm _ _ ha hb
            simp only [deepEqual_obj_inited] at h
            simp [Value.Eq, _obj.Eq, h]
  · intro f b
    rfl

theorem Eq_symmetric_when_initialized_witness :
    Value.Eq (Value.list (some [Value.int 1, Value.int 2]))
        (Value.obj (some [("x", Value.int 1)]) true) =
      Value.Eq (Value.obj (some [("x", Value.int 1)]) true)
        (Value.list (some [Value.int 1, Value.int 2])) ∧
    ∃ r : Bool, Value.Eq (Value.list (some [Value.int 1, Value.int 2]))
      (Value.obj (some [("x", Value.int 1)]) true) = some (Except.ok r) :=
  Eq_symmetric_when_initialized.1 (Value.list (some [Value.int 1, Value.int 2]))
    (Value.obj (some [("x", Value.int 1)]) true)
    (by simp [Value.WF, WFElems]) (by simp [Value.WF, WFEntries])
    (fun _ h => Value.noConfusion h) (fun _ h => Value.noConfusion h)
    (fun _ h => Value.noConfusion h)
    (fun _ h => by
      have h1 := (Value.obj.inj h).2
      exact absurd h1 (by decide))

/-! ## Theorems: `ast/token.go` -/

/-- C19, the code at the failing inputs: for each of the twelve constants
NOT, NOT_EQ, GT, GT_EQ, LT, LT_EQ, CMP, PIPE, DBL_PIPE, AMP, DBL_AMP and
BLANK_IDENT the switch of `TokenKind.String` has no case, so the call reaches
the default branch; the constants of the block for which `String` does not
return the name are these twelve and the three markers; and the text of a
Token of such a kind holds what the formatting library writes for an aborted
`String` method, not the name of the kind. -/
theorem tokenKind_String_missing_cases (quote : String → String) (recovered : String) :
    ast.TokenKind.String ast.NOT = none ∧
    ast.TokenKind.String ast.NOT_EQ = none ∧
    ast.TokenKind.String ast.GT = none ∧
    ast.TokenKind.String ast.GT_EQ = none ∧
    ast.TokenKind.String ast.LT = none ∧
    ast.TokenKind.String ast.LT_EQ = none ∧
    ast.TokenKind.String ast.CMP = none ∧
    ast.TokenKind.String ast.PIPE = none ∧
    ast.TokenKind.String ast.DBL_PIPE = none ∧
    ast.TokenKind.String ast.AMP = none ∧
    ast.TokenKind.String ast.DBL_AMP = none ∧
    ast.TokenKind.String ast.BLANK_IDENT = none ∧
    (ast.declaredKinds.filter
        (fun p => !(decide (ast.TokenKind.String p.1 = some p.2)))).map Prod.snd =
      ["badKind", "NOT", "NOT_EQ", "GT", "GT_EQ", "LT", "LT_EQ", "CMP", "PIPE", "DBL_PIPE",
        "AMP", "DBL_AMP", "basicBegin", "basicEnd", "BLANK_IDENT"] ∧
    ast.Token.String quote recovered ⟨ast.NOT, "!", ⟨1, 1⟩⟩ =
      "Token(" ++ recovered ++ ", " ++ quote "!" ++ ", " ++ "(1, 1)" ++ ")" ∧
    ast.Token.String quote recovered ⟨ast.PLUS, "+", ⟨1, 1⟩⟩ =
      "Token(" ++ "PLUS" ++ ", " ++ quote "+" ++ ", " ++ "(1, 1)" ++ ")" := by
  refine ⟨rfl, rfl, rfl, rfl, rfl, rfl, rfl, rfl, rfl, rfl, rfl, rfl, ?_, rfl, rfl⟩
  decide

/-! ## Theorems: `reflect.DeepEqual` and the deep equality of the spec -/

theorem mapLookup_mem {α : Type} (fs : List (String × α)) (k : String) (v : α)
    (h : mapLookup fs k = some v) : (k, v) ∈ fs := by
  induction fs with
  | nil => simp [mapLookup] at h
  | cons e rest ih =>
    obtain ⟨k0, v0⟩ := e
    by_cases hk : k0 = k
    · subst hk
      simp only [mapLookup, if_true, Option.some.injEq] at h
      subst h
      exact List.mem_cons_self _ _
    · simp only [mapLookup, hk, if_false] at h
      exact List.mem_cons_of_mem _ (ih h)

theorem noEmptyListEntries_mem (fs : List (String × Value)) (h : noEmptyListEntries fs = true)
    (k : String) (v : Value) (hm : (k, v) ∈ fs) : Value.noEmptyList v = true := by
  induction fs with
  | nil => simp at hm
  | cons e rest ih =>
    obtain ⟨k0, v0⟩ := e
    simp only [noEmptyListEntries, Bool.and_eq_true] at h
    rcases List.mem_cons.mp hm with heq | hm1
    · cases heq
      exact h.1
    · exact ih h.2 hm1

theorem all_lookup_iff {α : Type} (fs gs : List (String × α)) :
    gs.all (fun e => (mapLookup fs e.1).isSome) = true ↔
      ∀ k : String, k ∈ gs.map Prod.fst → k ∈ fs.map Prod.fst := by
  constructor
  · intro h k hk
    obtain ⟨e, he, hek⟩ := List.mem_map.mp hk
    subst hek
    have h1 := List.all_eq_true.mp h e he
    rw [Option.isSome_iff_exists] at h1
    exact (mapLookup_isSome_iff fs e.1).mp h1
  · intro h
    rw [List.all_eq_true]
    intro e he
    rw [Option.isSome_iff_exists]
    exact (mapLookup_isSome_iff fs e.1).mpr (h e.1 (List.mem_map_of_mem Prod.fst he))

theorem deepEqualEntries_keys_subset (fs gs : List (String × Value))
    (h : deepEqualEntries fs gs = true) : fs.map Prod.fst ⊆ gs.map Prod.fst := by
  intro k hk
  obtain ⟨e, he, hek⟩ := List.mem_map.mp hk
  obtain ⟨k0, v0⟩ := e
  simp only at hek
  subst hek
  obtain ⟨w, hw, _⟩ := (deepEqualEntries_iff fs gs).mp h k0 v0 he
  exact (mapLookup_isSome_iff gs k0).mp ⟨w, hw⟩

theorem keys_length_iff {α : Type} (fs gs : List (String × α))
    (hf : (fs.map Prod.fst).Nodup) (hg : (gs.map Prod.fst).Nodup)
    (hsub : fs.map Prod.fst ⊆ gs.map Prod.fst) :
    fs.length = gs.length ↔ ∀ k : String, k ∈ gs.map Prod.fst → k ∈ fs.map Prod.fst := by
  constructor
  · intro hlen k hk
    have hperm : (fs.map Prod.fst).Perm (gs.map Prod.fst) :=
      (List.subperm_of_subset hf hsub).perm_of_length_le (by simp [hlen])
    exact hperm.mem_iff.mpr hk
  · intro hback
    have hperm : (fs.map Prod.fst).Perm (gs.map Prod.fst) :=
      (List.perm_ext_iff_of_nodup hf hg).mpr (fun k => ⟨fun h => hsub h, hback k⟩)
    simpa using hperm.length_eq

mutual
/-- On well formed values that hold no empty List, `reflect.DeepEqual` and
the deep equality of the spec agree. -/
theorem deepEqual_eq_specEqual : ∀ v w : Value, Value.WF v = true → Value.WF w = true →
    Value.noEmptyList v = true → Value.noEmptyList w = true →
    deepEqual v w = specEqual v w
  | Value.null, w, _, _, _, _ => by cases w <;> simp [deepEqual, specEqual]
  | Value.str s, w, _, _, _, _ => by cases w <;> simp [deepEqual, specEqual]
  | Value.int i, w, _, _, _, _ => by cases w <;> simp [deepEqual, specEqual]
  | Value.list none, w, _, _, hn, _ => by simp [Value.noEmptyList] at hn
  | Value.list (some xs), w, hv, hw, hn, hm => by
    cases w with
    | list b =>
      cases b with
      | none => simp [Value.noEmptyList] at hm
      | some ys =>
        simp only [Value.WF] at hv hw
        simp only [Value.noEmptyList, Bool.and_eq_true] at hn hm
        simp only [deepEqual, specEqual]
        exact deepEqualElems_eq_specEqualElems xs ys hv hw hn.2 hm.2
    | null => simp [deepEqual, specEqual]
    | str t => simp [deepEqual, specEqual]
    | int j => simp [deepEqual, specEqual]
    | obj g j => simp [deepEqual, specEqual]
  | Value.obj none i, w, _, _, _, _ => by
    cases w with
    | obj g j => cases g <;> simp [deepEqual, specEqual]
    | null => simp [deepEqual, specEqual]
    | str t => simp [deepEqual, specEqual]
    | int j => simp [deepEqual, specEqual]
    | list b => simp [deepEqual, specEqual]
  | Value.obj (some fs) i, w, hv, hw, hn, hm => by
    cases w with
    | obj g j =>
      cases g with
      | none => simp [deepEqual, specEqual]
      | some gs =>
        simp only [Value.WF, Bool.and_eq_true, decide_eq_true_eq] at hv hw
        simp only [Value.noEmptyList] at hn hm
        have hE : deepEqualEntries fs gs = specEqualEntries fs gs :=
          deepEqualEntries_eq_specEqualEntries fs gs hv.2 hn
            (fun k w1 hmem => ⟨WFEntries_mem gs hw.2 k w1 hmem,
              noEmptyListEntries_mem gs hm k w1 hmem⟩)
        simp only [deepEqual, specEqual, ← hE]
        rw [Bool.eq_iff_iff]
        simp only [Bool.and_eq_true, decide_eq_true_eq, all_lookup_iff]
        constructor
        · rintro ⟨⟨hlen, hent⟩, hij⟩
          exact ⟨⟨hij, hent⟩,
            (keys_length_iff fs gs hv.1 hw.1 (deepEqualEntries_keys_subset fs gs hent)).mp hlen⟩
        · rintro ⟨⟨hij, hent⟩, hback⟩
          exact ⟨⟨(keys_length_iff fs gs hv.1 hw.1
            (deepEqualEntries_keys_subset fs gs hent)).mpr hback, hent⟩, hij⟩
    | null => simp [deepEqual, specEqual]
    | str t => simp [deepEqual, specEqual]
    | int j => simp [deepEqual, specEqual]
    | list b => simp [deepEqual, specEqual]
/-- The two equalities on the elements of two slices. -/
theorem deepEqualElems_eq_specEqualElems : ∀ xs ys : List Value, WFElems xs = true →
    WFElems ys = true → noEmptyListElems xs = true → noEmptyListElems ys = true →
    deepEqualElems xs ys = specEqualElems xs ys
  | [], ys, _, _, _, _ => by cases ys <;> simp [deepEqualElems, specEqualElems]
  | x :: xs, ys, hx, hy, hn, hm => by
    cases ys with
    | nil => simp [deepEqualElems, specEqualElems]
    | cons y ys =>
      simp only [WFElems, Bool.and_eq_true] at hx hy
      simp only [noEmptyListElems, Bool.and_eq_true] at hn hm
      simp only [deepEqualElems, specEqualElems,
        deepEqual_eq_specEqual x y hx.1 hy.1 hn.1 hm.1,
        deepEqualElems_eq_specEqualElems xs ys hx.2 hy.2 hn.2 hm.2]
/-- The two equalities on the entries of a map, against a second map. -/
theorem deepEqualEntries_eq_specEqualEntries : ∀ fs gs : List (String × Value),
    WFEntries fs = true → noEmptyListEntries fs = true →
    (∀ (k : String) (w : Value), (k, w) ∈ gs →
      Value.WF w = true ∧ Value.noEmptyList w = true) →
    deepEqualEntries fs gs = specEqualEntries fs gs
  | [], _, _, _, _ => rfl
  | (k, v) :: rest, gs, hwf, hn, hgs => by
    simp only [WFEntries, Bool.and_eq_true] at hwf
    simp only [noEmptyListEntries, Bool.and_eq_true] at hn
    simp only [deepEqualEntries, specEqualEntries,
      deepEqualEntries_eq_specEqualEntries rest gs hwf.2 hn.2 hgs]
    cases hl : mapLookup gs k with
    | none => rfl
    | some w =>
      have hw := hgs k w (mapLookup_mem gs k w hl)
      simp only [deepEqual_eq_specEqual v w hwf.1 hw.1 hn.1 hw.2]
end

/-- C10 fails as stated: with the key x declared twice, the key lists of
two definitions are permutations of each other and the values are permuted
the same way, yet the Objs differ, because the later value of a repeated key
overwrites the earlier one; and two Objs whose field x holds a List of length
0, made from the nil slice in one and from an empty slice in the other, have
deep-equal values in the words of the spec and `Eq` returns false. -/
theorem obj_Eq_repeated_keys_differ :
    (∃ a b : _obj,
      NewObj.Init ⟨["x", "x"]⟩ [Value.int 1, Value.int 2] = some a ∧
      NewObj.Init ⟨["x", "x"]⟩ [Value.int 2, Value.int 1] = some b ∧
      ((["x", "x"] : List String).zip [Value.int 1, Value.int 2]).Perm
        ((["x", "x"] : List String).zip [Value.int 2, Value.int 1]) ∧
      a.Eq b.toValue = (a, Except.ok false)) ∧
    (∃ a b : _obj,
      NewObj.Init ⟨["x"]⟩ [Value.list none] = some a ∧
      NewObj.Init ⟨["x"]⟩ [Value.list (some [])] = some b ∧
      specEqual (Value.list none) (Value.list (some [])) = true ∧
      a.Eq b.toValue = (a, Except.ok false)) :=
  ⟨⟨⟨some [("x", Value.int 2)], true⟩, ⟨some [("x", Value.int 1)], true⟩, rfl, rfl,
      List.Perm.swap _ _ _, rfl⟩,
    ⟨⟨some [("x", Value.list none)], true⟩, ⟨some [("x", Value.list (some []))], true⟩,
      rfl, rfl, rfl, rfl⟩⟩

/-- C10 as amended: `Eq` of an initialized Obj against an Obj returns a
boolean; for initialized Objs whose field values hold no empty List it is
true exactly when the two have the same field names and, under each name,
values that are deep-equal in the words of the spec; `Eq` of an initialized
Obj against a value that is not an Obj returns false; and two Objs
initialized from lists of pairwise distinct keys that are permutations of
each other, the values permuted the same way, are equal. -/
theorem obj_Eq_spec :
    (∀ a b : _obj, a.inited = true → ∃ r : Bool, a.Eq b.toValue = (a, Except.ok r)) ∧
    (∀ a b : _obj, a.Ready → b.Ready →
      Value.WF a.toValue = true → Value.WF b.toValue = true →
      Value.noEmptyList a.toValue = true → Value.noEmptyList b.toValue = true →
      ((a.Eq b.toValue).2 = Except.ok true ↔
        ((∀ k : String, k ∈ mapKeys a.fields ↔ k ∈ mapKeys b.fields) ∧
          ∀ (k : String) (v w : Value), mapGet a.fields k = some v →
            mapGet b.fields k = some w → specEqual v w = true))) ∧
    (∀ (a : _obj) (v : Value), a.inited = true →
      (∀ (fields : Option (List (String × Value))) (inited : Bool),
        v ≠ Value.obj fields inited) →
      a.Eq v = (a, Except.ok false)) ∧
    (∀ (o1 o2 : _obj) (ks ks1 : List String) (vs vs1 : List Value),
      ks.Nodup → vs.length = ks.length → vs1.length = ks1.length →
      (ks.zip vs).Perm (ks1.zip vs1) → (∀ v ∈ vs, Value.WF v = true) →
      ∃ a b : _obj, o1.Init ⟨ks⟩ vs = some a ∧ o2.Init ⟨ks1⟩ vs1 = some b ∧
        a.Eq b.toValue = (a, Except.ok true)) := by
  refine ⟨?_, ?_, ?_, ?_⟩
  · rintro ⟨fa, ia⟩ ⟨fb, ib⟩ hia
    simp only at hia
    subst hia
    exact ⟨deepEqualMap fa fb, by simp [_obj.Eq, _obj.toValue]⟩
  · rintro ⟨fa, ia⟩ ⟨fb, ib⟩ ⟨hia, fs, hfa, hnda⟩ ⟨hib, gs, hfb, hndb⟩ hwa hwb hna hnb
    simp only at hia hfa hib hfb
    subst hia
    subst hfa
    subst hib
    subst hfb
    simp only [_obj.toValue, Value.WF, Bool.and_eq_true, decide_eq_true_eq] at hwa hwb
    simp only [_obj.toValue, Value.noEmptyList] at hna hnb
    have hval : ∀ (k : String) (v w : Value), mapLookup fs k = some v →
        mapLookup gs k = some w → deepEqual v w = specEqual v w := by
      intro k v w hv hw
      have hmv := mapLookup_mem fs k v hv
      have hmw := mapLookup_mem gs k w hw
      exact deepEqual_eq_specEqual v w (WFEntries_mem fs hwa.2 k v hmv)
        (WFEntries_mem gs hwb.2 k w hmw) (noEmptyListEntries_mem fs hna k v hmv)
        (noEmptyListEntries_mem gs hnb k w hmw)
    simp only [_obj.Eq, _obj.toValue, Bool.not_true, Bool.false_eq_true, if_false,
      Except.ok.injEq, deepEqualMap_iff fs gs hnda hndb, mapKeys, mapGet]
    constructor
    · rintro ⟨hkeys, hvals⟩
      exact ⟨hkeys, fun k v w hv hw => by rw [← hval k v w hv hw]; exact hvals k v w hv hw⟩
    · rintro ⟨hkeys, hvals⟩
      exact ⟨hkeys, fun k v w hv hw => by rw [hval k v w hv hw]; exact hvals k v w hv hw⟩
  · intro a v hia hv
    cases v with
    | obj f i => exact absurd rfl (hv f i)
    | null => simp [_obj.Eq, hia]
    | str s => simp [_obj.Eq, hia]
    | int i => simp [_obj.Eq, hia]
    | list t => simp [_obj.Eq, hia]
  · intro o1 o2 ks ks1 vs vs1 hnd hlen hlen1 hperm hwf
    have hnd1 : ks1.Nodup := by
      have h := hperm.map Prod.fst
      rw [List.map_fst_zip _ _ (by omega), List.map_fst_zip _ _ (by omega)] at h
      exact h.nodup_iff.mp hnd
    obtain ⟨fs, hfs, hndf, hlf⟩ := init_lookup_iff ks vs hnd hlen
    obtain ⟨gs, hgs, hndg, hlg⟩ := init_lookup_iff ks1 vs1 hnd1 hlen1
    refine ⟨⟨some fs, true⟩, ⟨some gs, true⟩, by simp [_obj.Init, hfs],
      by simp [_obj.Init, hgs], ?_⟩
    have heq : deepEqualMap (some fs) (some gs) = true := by
      rw [deepEqualMap_iff fs gs hndf hndg]
      constructor
      · intro k
        rw [← mapLookup_isSome_iff, ← mapLookup_isSome_iff]
        constructor
        · rintro ⟨v, hv⟩
          exact ⟨v, (hlg k v).mpr (hperm.mem_iff.mp ((hlf k v).mp hv))⟩
        · rintro ⟨v, hv⟩
          exact ⟨v, (hlf k v).mpr (hperm.mem_iff.mpr ((hlg k v).mp hv))⟩
      · intro k v w hv hw
        have hw1 : mapLookup gs k = some v := (hlg k v).mpr (hperm.mem_iff.mp ((hlf k v).mp hv))
        rw [hw] at hw1
        cases hw1
        exact deepEqual_refl v (hwf v (List.of_mem_zip ((hlf k v).mp hv)).2)
    simp [_obj.Eq, _obj.toValue, heq]

theorem obj_Eq_spec_witness :
    (∃ a b : _obj,
      NewObj.Init ⟨["x", "y"]⟩ [Value.int 1, Value.list none] = some a ∧
      NewObj.Init ⟨["y", "x"]⟩ [Value.list none, Value.int 1] = some b ∧
      a.Eq b.toValue = (a, Except.ok true)) ∧
    (((_obj.mk (some [("x", Value.list (some [Value.int 1]))]) true).Eq
        (_obj.mk (some [("x", Value.list (some [Value.int 2]))]) true).toValue).2 =
        Except.ok true ↔
      ((∀ k : String,
          k ∈ mapKeys (_obj.mk (some [("x", Value.list (some [Value.int 1]))]) true).fields ↔
          k ∈ mapKeys (_obj.mk (some [("x", Value.list (some [Value.int 2]))]) true).fields) ∧
        ∀ (k : String) (v w : Value),
          mapGet (_obj.mk (some [("x", Value.list (some [Value.int 1]))]) true).fields k =
            some v →
          mapGet (_obj.mk (some [("x", Value.list (some [Value.int 2]))]) true).fields k =
            some w →
          specEqual v w = true)) ∧
    (_obj.mk (some [("x", Value.int 1)]) true).Eq Value.null =
      (_obj.mk (some [("x", Value.int 1)]) true, Except.ok false) :=
  ⟨obj_Eq_spec.2.2.2 NewObj NewObj ["x", "y"] ["y", "x"] [Value.int 1, Value.list none]
      [Value.list none, Value.int 1] (by decide) rfl rfl
      (List.Perm.swap _ _ _) (by simp [Value.WF]),
    obj_Eq_spec.2.1 (_obj.mk (some [("x", Value.list (some [Value.int 1]))]) true)
      (_obj.mk (some [("x", Value.list (some [Value.int 2]))]) true)
      ⟨rfl, [("x", Value.list (some [Value.int 1]))], rfl, by decide⟩
      ⟨rfl, [("x", Value.list (some [Value.int 2]))], rfl, by decide⟩
      (by simp [_obj.toValue, Value.WF, WFEntries, WFElems])
      (by simp [_obj.toValue, Value.WF, WFEntries, WFElems])
      (by simp [_obj.toValue, Value.noEmptyList, noEmptyListEntries, noEmptyListElems])
      (by simp [_obj.toValue, Value.noEmptyList, noEmptyListEntries, noEmptyListElems]),
    obj_Eq_spec.2.2.1 (_obj.mk (some [("x", Value.int 1)]) true) Value.null rfl
      (fun _ _ h => Value.noConfusion h)⟩

/-! ## Theorems: the outcomes of the operations -/

theorem objStringLoop_outcome (es : List (String × Except Error Str))
    (hes : ∀ e ∈ es, (∃ s, e.2 = Except.ok s) ∨ e.2 = Except.error Error.UninitializedObj) :
    ∀ (idx : Nat) (buf : String),
      (∃ s, objStringLoop es idx buf = Except.ok s) ∨
        objStringLoop es idx buf = Except.error Error.UninitializedObj := by
  induction es with
  | nil =>
    intro idx buf
    exact Or.inl ⟨buf, rfl⟩
  | cons e rest ih =>
    intro idx buf
    obtain ⟨k, r⟩ := e
    have hr := hes (k, r) (List.mem_cons_self _ _)
    simp only at hr
    rcases hr with ⟨s, hs⟩ | hs
    · subst hs
      simp only [objStringLoop]
      exact ih (fun e he => hes e (List.mem_cons_of_mem _ he)) _ _
    · subst hs
      exact Or.inr rfl

mutual
/-- A rendering returns a text or fails with UninitializedObj, under an
iteration order that visits every entry once. -/
theorem String_outcome (ord : MapOrder) (hord : ord.Visits) :
    ∀ v : Value, (∃ s, Value.String ord v = Except.ok s) ∨
      Value.String ord v = Except.error Error.UninitializedObj
  | Value.null => Or.inl ⟨_, rfl⟩
  | Value.str _ => Or.inl ⟨_, rfl⟩
  | Value.int _ => Or.inl ⟨_, rfl⟩
  | Value.list none => Or.inl ⟨_, rfl⟩
  | Value.list (some xs) => by
    simp only [Value.String]
    by_cases hlen : xs.length = 0
    · simp only [hlen, if_true]
      exact Or.inl ⟨_, rfl⟩
    · simp only [hlen, if_false]
      rcases listStringLoop_outcome ord hord xs 0 "[" with ⟨s, hs⟩ | hs
      · rw [hs]
        exact Or.inl ⟨_, rfl⟩
      · rw [hs]
        exact Or.inr rfl
  | Value.obj none inited => by
    cases inited
    · exact Or.inr rfl
    · exact Or.inl ⟨_, rfl⟩
  | Value.obj (some fs) inited => by
    cases inited
    · exact Or.inr rfl
    · simp only [Value.String, Bool.not_true, Bool.false_eq_true, if_false]
      by_cases hlen : fs.length = 0
      · simp only [hlen, if_true]
        exact Or.inl ⟨_, rfl⟩
      · simp only [hlen, if_false]
        have hes : ∀ e ∈ ord (renderEntries ord fs),
            (∃ s, e.2 = Except.ok s) ∨ e.2 = Except.error Error.UninitializedObj :=
          fun e he => renderEntries_outcome ord hord fs e ((hord _).subset he)
        rcases objStringLoop_outcome _ hes 0 "obj \x7b" with ⟨s, hs⟩ | hs
        · rw [hs]
          exact Or.inl ⟨_, rfl⟩
        · rw [hs]
          exact Or.inr rfl
/-- The loop of `_list.String` returns a text or fails with UninitializedObj. -/
theorem listStringLoop_outcome (ord : MapOrder) (hord : ord.Visits) :
    ∀ (xs : List Value) (idx : Nat) (buf : String),
      (∃ s, listStringLoop ord xs idx buf = Except.ok s) ∨
        listStringLoop ord xs idx buf = Except.error Error.UninitializedObj
  | [], _, buf => Or.inl ⟨buf, rfl⟩
  | x :: xs, idx, buf => by
    simp only [listStringLoop]
    rcases String_outcome ord hord x with ⟨s, hs⟩ | hs
    · rw [hs]
      exact listStringLoop_outcome ord hord xs _ _
    · rw [hs]
      exact Or.inr rfl
/-- The rendering of each value of a map is a text or UninitializedObj. -/
theorem renderEntries_outcome (ord : MapOrder) (hord : ord.Visits) :
    ∀ (fs : List (String × Value)), ∀ e ∈ renderEntries ord fs,
      (∃ s, e.2 = Except.ok s) ∨ e.2 = Except.error Error.UninitializedObj
  | [], e, he => by simp [renderEntries] at he
  | (k, v) :: rest, e, he => by
    simp only [renderEntries, List.mem_cons] at he
    rcases he with he | he
    · subst he
      exact String_outcome ord hord v
    · exact renderEntries_outcome ord hord rest e he
end

/-- C13 as amended: on the values of the model, which are not nil and hold
no List or Obj that contains itself, `Get` and `Set` return for every list,
index, value and size of `int` (the indexing is reached only inside the
bounds); `Init` returns when there are at least as many values as keys and
aborts when there are fewer; every other operation of Null, Str, List and
Obj returns, with a result or with one of the errors of the taxonomy. -/
theorem operations_abort_only_in_Init (ord : MapOrder) (hord : ord.Visits) :
    (∀ (bits : Nat) (ls : _list) (index : Value), ∃ r, ls.Get bits index = some (ls, r) ∧
      ((∃ v, r = Except.ok v) ∨ r = Except.error Error.IndexOutOfBounds ∨
        r = Except.error (Error.TypeMismatch "Expected 'Int'"))) ∧
    (∀ (bits : Nat) (ls : _list) (index val : Value),
      ∃ ls1 e, ls.Set bits index val = some (ls1, e) ∧
        (e = none ∨ e = some Error.IndexOutOfBounds ∨
          e = some (Error.TypeMismatch "Expected 'Int'"))) ∧
    (∀ (o : _obj) (d : ObjDef) (vals : List Value), d.Keys.length ≤ vals.length →
      ∃ o1, o.Init d vals = some o1) ∧
    (∀ (o : _obj) (d : ObjDef) (vals : List Value), vals.length < d.Keys.length →
      o.Init d vals = none) ∧
    (∀ v : Value, (∃ s, Value.String ord v = Except.ok s) ∨
      Value.String ord v = Except.error Error.UninitializedObj) ∧
    (∀ (ls : _list) (v : Value),
      ls.TypeOf = (ls, Except.ok ValueType.TLIST) ∧
      (∃ r, ls.String ord = (ls, r) ∧
        ((∃ s, r = Except.ok s) ∨ r = Except.error Error.UninitializedObj)) ∧
      (∃ r, ls.Eq v = (ls, Except.ok r)) ∧
      ls.Cmp v = (ls, Except.error (Error.TypeMismatch "Expected Comparable Type")) ∧
      (∃ r, ls.Add ord v = (ls, r) ∧
        ((∃ t, r = Except.ok (Value.str t)) ∨ r = Except.error Error.UninitializedObj ∨
          r = Except.error (Error.TypeMismatch "Expected Number Type"))) ∧
      (∃ n, ls.Len = (ls, Except.ok (Value.int n))) ∧
      (∃ ls1, ls.Append v = (ls1, none))) ∧
    (∀ (o : _obj) (v : Value) (key : Str),
      (o.TypeOf = (o, Except.ok ValueType.TOBJ) ∨
        o.TypeOf = (o, Except.error Error.UninitializedObj)) ∧
      (∃ r, o.String ord = (o, r) ∧
        ((∃ s, r = Except.ok s) ∨ r = Except.error Error.UninitializedObj)) ∧
      ((∃ r, o.Eq v = (o, Except.ok r)) ∨
        o.Eq v = (o, Except.error Error.UninitializedObj)) ∧
      (o.Cmp v = (o, Except.error (Error.TypeMismatch "Expected Comparable Type")) ∨
        o.Cmp v = (o, Except.error Error.UninitializedObj)) ∧
      (∃ r, o.Add ord v = (o, r) ∧
        ((∃ t, r = Except.ok (Value.str t)) ∨ r = Except.error Error.UninitializedObj ∨
          r = Except.error (Error.TypeMismatch "Expected Number Type"))) ∧
      (∃ r, o.GetField key = (o, r) ∧
        ((∃ w, r = Except.ok w) ∨ r = Except.error Error.UninitializedObj ∨
          r = Except.error (Error.NoSuchField key))) ∧
      (∃ o1 e, o.PutField key v = (o1, e) ∧
        (e = none ∨ e = some Error.UninitializedObj ∨ e = some (Error.NoSuchField key)))) ∧
    (∀ (s : Str) (v : Value),
      Str.TypeOf s = Except.ok ValueType.TSTR ∧ Str.String s = Except.ok s ∧
      (∃ r, Str.Eq s v = Except.ok r) ∧
      ((∃ c, Str.Cmp s v = Except.ok c) ∨ Str.Cmp s v = Except.error Error.ExpectedCmp) ∧
      ((∃ t, Str.Add ord s v = Except.ok (Value.str t)) ∨
        Str.Add ord s v = Except.error Error.UninitializedObj)) ∧
    (∀ v : Value,
      _null.TypeOf = Except.ok ValueType.TNULL ∧ _null.String = Except.ok "null" ∧
      (∃ r, _null.Eq v = Except.ok r) ∧ _null.Cmp v = Except.error Error.NullValue ∧
      ((∃ t, _null.Add ord v = Except.ok (Value.str t)) ∨
        _null.Add ord v = Except.error Error.NullValue)) := by
  have hadd : ∀ (w : Value) (t : Str),
      (∃ u, asValue (strcat ord [w, Value.str t]) = Except.ok (Value.str u)) ∨
        asValue (strcat ord [w, Value.str t]) = Except.error Error.UninitializedObj := by
    intro w t
    rw [strcat_pair]
    rcases String_outcome ord hord w with ⟨s, hs⟩ | hs
    · rw [hs]
      exact Or.inl ⟨_, rfl⟩
    · rw [hs]
      exact Or.inr rfl
  refine ⟨?_, ?_, ?_, ?_, String_outcome ord hord, ?_, ?_, ?_, ?_⟩
  · intro bits ls index
    cases index with
    | int i =>
      by_cases hc : toInt bits i < 0 ∨ toInt bits i ≥ (sliceLen ls.array : Int)
      · exact ⟨Except.error Error.IndexOutOfBounds, by simp only [_list.Get, hc, if_true],
          Or.inr (Or.inl rfl)⟩
      · obtain ⟨v, hv⟩ := sliceIndex_of_lt ls.array (toInt bits i).toNat (by omega)
        exact ⟨Except.ok v, by simp only [_list.Get, hc, if_false, hv], Or.inl ⟨v, rfl⟩⟩
    | null => exact ⟨_, rfl, Or.inr (Or.inr rfl)⟩
    | str s => exact ⟨_, rfl, Or.inr (Or.inr rfl)⟩
    | list a => exact ⟨_, rfl, Or.inr (Or.inr rfl)⟩
    | obj f b => exact ⟨_, rfl, Or.inr (Or.inr rfl)⟩
  · intro bits ls index val
    cases index with
    | int i =>
      by_cases hc : toInt bits i < 0 ∨ toInt bits i ≥ (sliceLen ls.array : Int)
      · exact ⟨ls, some Error.IndexOutOfBounds, by simp only [_list.Set, hc, if_true],
          Or.inr (Or.inl rfl)⟩
      · obtain ⟨b, hb, _⟩ := sliceAssign_of_lt ls.array (toInt bits i).toNat val (by omega)
        exact ⟨⟨b⟩, none, by simp only [_list.Set, hc, if_false, hb], Or.inl rfl⟩
    | null => exact ⟨ls, _, rfl, Or.inr (Or.inr rfl)⟩
    | str s => exact ⟨ls, _, rfl, Or.inr (Or.inr rfl)⟩
    | list a => exact ⟨ls, _, rfl, Or.inr (Or.inr rfl)⟩
    | obj f b => exact ⟨ls, _, rfl, Or.inr (Or.inr rfl)⟩
  · intro o d vals hlen
    obtain ⟨o1, h, _⟩ := init_any_keys o d vals hlen
    exact ⟨o1, h⟩
  · intro o d vals hlen
    simp only [_obj.Init, initLoop_abort vals d.Keys 0 [] (by omega) (by omega)]
  · intro ls v
    refine ⟨rfl, ⟨_, rfl, String_outcome ord hord _⟩, ?_, rfl, ?_, ⟨_, rfl⟩, ⟨_, rfl⟩⟩
    · cases v <;> exact ⟨_, rfl⟩
    · cases v with
      | str t =>
        refine ⟨_, rfl, ?_⟩
        rcases hadd ls.toValue t with h | h
        · exact Or.inl h
        · exact Or.inr (Or.inl h)
      | null => exact ⟨_, rfl, Or.inr (Or.inr rfl)⟩
      | int i => exact ⟨_, rfl, Or.inr (Or.inr rfl)⟩
      | list a => exact ⟨_, rfl, Or.inr (Or.inr rfl)⟩
      | obj f b => exact ⟨_, rfl, Or.inr (Or.inr rfl)⟩
  · intro o v key
    obtain ⟨fields, inited⟩ := o
    cases inited with
    | false =>
      exact ⟨Or.inr rfl, ⟨_, rfl, String_outcome ord hord _⟩, Or.inr rfl, Or.inr rfl,
        ⟨_, rfl, Or.inr (Or.inl rfl)⟩, ⟨_, rfl, Or.inr (Or.inl rfl)⟩,
        ⟨_, _, rfl, Or.inr (Or.inl rfl)⟩⟩
    | true =>
      refine ⟨Or.inl rfl, ⟨_, rfl, String_outcome ord hord _⟩, Or.inl ?_, Or.inl rfl,
        ?_, ?_, ?_⟩
      · cases v <;> exact ⟨_, rfl⟩
      · cases v with
        | str t =>
          refine ⟨_, rfl, ?_⟩
          rcases hadd (_obj.toValue ⟨fields, true⟩) t with h | h
          · exact Or.inl h
          · exact Or.inr (Or.inl h)
        | null => exact ⟨_, rfl, Or.inr (Or.inr rfl)⟩
        | int i => exact ⟨_, rfl, Or.inr (Or.inr rfl)⟩
        | list a => exact ⟨_, rfl, Or.inr (Or.inr rfl)⟩
        | obj f b => exact ⟨_, rfl, Or.inr (Or.inr rfl)⟩
      · cases h : mapGet fields key with
        | none =>
          exact ⟨Except.error (Error.NoSuchField key), by simp [_obj.GetField, h],
            Or.inr (Or.inr rfl)⟩
        | some w => exact ⟨Except.ok w, by simp [_obj.GetField, h], Or.inl ⟨w, rfl⟩⟩
      · cases fields with
        | none => exact ⟨_, _, rfl, Or.inr (Or.inr rfl)⟩
        | some fs =>
          cases h : mapLookup fs key with
          | none =>
            exact ⟨⟨some fs, true⟩, some (Error.NoSuchField key),
              by simp [_obj.PutField, h], Or.inr (Or.inr rfl)⟩
          | some w =>
            exact ⟨⟨some (mapAssign fs key v), true⟩, none, by simp [_obj.PutField, h],
              Or.inl rfl⟩
  · intro s v
    refine ⟨rfl, rfl, ?_, ?_, ?_⟩
    · cases v <;> exact ⟨_, rfl⟩
    · cases v with
      | str t =>
        left
        simp only [Str.Cmp]
        split_ifs <;> exact ⟨_, rfl⟩
      | null => exact Or.inr rfl
      | int i => exact Or.inr rfl
      | list a => exact Or.inr rfl
      | obj f b => exact Or.inr rfl
    · simp only [Str.Add, strcat, strcatLoop, Value.String]
      rcases String_outcome ord hord v with ⟨r, hr⟩ | hr
      · rw [hr]
        exact Or.inl ⟨_, rfl⟩
      · rw [hr]
        exact Or.inr rfl
  · intro v
    refine ⟨rfl, rfl, ?_, rfl, ?_⟩
    · cases v <;> exact ⟨_, rfl⟩
    · cases v with
      | str t =>
        left
        simp only [_null.Add, strcat_pair, Value.String]
        exact ⟨_, rfl⟩
      | null => exact Or.inr rfl
      | int i => exact Or.inr rfl
      | list a => exact Or.inr rfl
      | obj f b => exact Or.inr rfl

theorem operations_abort_only_in_Init_witness :
    (∃ o1, NewObj.Init ⟨["x", "y"]⟩ [Value.int 1, Value.int 2, Value.int 3] = some o1) ∧
    NewObj.Init ⟨["x", "y"]⟩ [Value.int 1] = none ∧
    ((∃ t, Str.Add (fun es => es) "ab" (Value.list (some [Value.int 1])) =
        Except.ok (Value.str t)) ∨
      Str.Add (fun es => es) "ab" (Value.list (some [Value.int 1])) =
        Except.error Error.UninitializedObj) :=
  ⟨(operations_abort_only_in_Init (fun es => es) (fun es => List.Perm.refl es)).2.2.1
      NewObj ⟨["x", "y"]⟩ [Value.int 1, Value.int 2, Value.int 3] (by decide),
    (operations_abort_only_in_Init (fun es => es) (fun es => List.Perm.refl es)).2.2.2.1
      NewObj ⟨["x", "y"]⟩ [Value.int 1] (by decide),
    ((operations_abort_only_in_Init (fun es => es)
      (fun es => List.Perm.refl es)).2.2.2.2.2.2.2.1 "ab"
      (Value.list (some [Value.int 1]))).2.2.2.2⟩

end Golem
